import Mathlib

/-!
# RIVL importer (`apps/qtViewer/sg/importer/ImportRIVL.cpp`)

A shallow embedding of `ospray::sg::parseBGFscene`, of `ospray::sg::importRIVL`
from the point where the document has been read, and of the C library
routines they call on text (`strtok`, `atoi`, `atol`, `atof`, `sscanf`),
followed by the properties of the importer that are proved about it.

Conventions of the embedding.

* Every scene-graph object the importer creates is stored in the global
  `nodeList` by the statement that follows its `new`, so an object is
  identified by the index of its table entry.  A pointer is therefore an
  `Option Nat`: `none` is `NULL`, `some i` is the object created for entry `i`.
* A fragment of the parser returns the global `nodeList` as it left it
  together with the fault that stopped it, if any.  A fault is a thrown
  `std::runtime_error`, the `FATAL` exit, a failed `assert` (the file starts
  with `#undef NDEBUG`), or one of the two undefined behaviours the text
  handling can reach: indexing `nodeList` past its end and handing the `NULL`
  of an exhausted `strtok` to `atof`/`atol`.
* Console output (`cout`) is not part of the model.
-/

namespace ospray.sg

/-! ## The document model (`xml::Node`, `xml::Prop`) -/

/-- An attribute of an element: `xml::Prop`. -/
structure XmlProp where
  name : String
  value : String
  deriving DecidableEq, Repr

/-- An element: `xml::Node` with its `name`, `content`, `prop` and `child`. -/
inductive XmlNode where
  | mk (name : String) (content : String) (prop : List XmlProp) (child : List XmlNode)

namespace XmlNode

def name : XmlNode → String
  | mk n _ _ _ => n

def content : XmlNode → String
  | mk _ c _ _ => c

def prop : XmlNode → List XmlProp
  | mk _ _ p _ => p

def child : XmlNode → List XmlNode
  | mk _ _ _ c => c

end XmlNode

/-! ## C strings and the C library routines used on them -/

/-- The characters `std::string::c_str()` shows to a C routine: those before
the first NUL. -/
def c_str (s : String) : List Char :=
  s.toList.takeWhile (fun c => c != Char.ofNat 0)

/-- The delimiter set `" \t\n\r"` given to every `strtok` call. -/
def isDelim (c : Char) : Bool :=
  c == ' ' || c == '\t' || c == '\n' || c == '\r'

/-- The C `isspace` of the "C" locale. -/
def isspace (c : Char) : Bool :=
  c == ' ' || c == '\t' || c == '\n' || c == Char.ofNat 11 || c == Char.ofNat 12 || c == '\r'

/-- Whether a token starts at the head of the text. -/
def startsToken : List Char → Bool
  | [] => false
  | c :: _ => !isDelim c

/-- The tokens that `strtok(value, " \t\n\r")` followed by
`strtok(NULL, " \t\n\r")` calls return, in order, until `NULL`: the maximal
runs of characters that are not delimiters. -/
def strtokAll : List Char → List (List Char)
  | [] => []
  | c :: cs =>
    if isDelim c then strtokAll cs
    else if startsToken cs then (c :: (strtokAll cs).headD []) :: (strtokAll cs).tail
    else [c] :: strtokAll cs

/-- The value of the decimal digits at the head of the text, after `acc`. -/
def digitsValue : Nat → List Char → Nat
  | acc, [] => acc
  | acc, c :: cs => if c.isDigit then digitsValue (acc * 10 + (c.toNat - 48)) cs else acc

def LONG_MAX : Int := 2 ^ 63 - 1

def LONG_MIN : Int := -(2 ^ 63)

/-- The sign and the digits of `strtol(s, NULL, 10)`, after the leading white space. -/
def signedDigits : List Char → Int
  | '-' :: cs => -(digitsValue 0 cs : Int)
  | '+' :: cs => (digitsValue 0 cs : Int)
  | cs => (digitsValue 0 cs : Int)

/-- The function `strtol(s, NULL, 10)` with a 64-bit `long`: white space, an
optional sign, the decimal digits that follow; a value outside `long` is
clamped to `LONG_MIN` or `LONG_MAX`. -/
def strtol (s : List Char) : Int :=
  max LONG_MIN (min LONG_MAX (signedDigits (s.dropWhile isspace)))

/-- The function `atol`: `strtol(s, NULL, 10)`. -/
def atol (s : List Char) : Int := strtol s

/-- Conversion of an integer to `int` / `int32` (two's complement, 32 bits). -/
def toInt32 (v : Int) : Int := (v + 2 ^ 31) % 2 ^ 32 - 2 ^ 31

/-- The function `atoi`, as the C library computes it:
`(int) strtol(s, NULL, 10)`. -/
def atoi (s : List Char) : Int := toInt32 (strtol s)

def SIZE_MAX : Nat := 2 ^ 64 - 1

/-- Conversion of an integer to `size_t` (64 bits). -/
def toSizeT (v : Int) : Nat := (v % 2 ^ 64).toNat

/-- A `float`, given by the text that `strtod` converts to it.  The rounding
of the decimal text to binary32 is not modelled. -/
structure CFloat where
  text : String
  deriving DecidableEq, Repr

/-- How far the scan of a decimal floating-point number has come. -/
inductive FloatScan where
  | start | sign | int | dot | frac | expMark | expSign | exp
  deriving DecidableEq, Repr

/-- The scan after one more character, if the character continues a number. -/
def FloatScan.next : FloatScan → Char → Option FloatScan
  | .start, c =>
    if c == '+' || c == '-' then some .sign
    else if c.isDigit then some .int else if c == '.' then some .dot else none
  | .sign, c => if c.isDigit then some .int else if c == '.' then some .dot else none
  | .int, c =>
    if c.isDigit then some .int else if c == '.' then some .frac
    else if c == 'e' || c == 'E' then some .expMark else none
  | .dot, c => if c.isDigit then some .frac else none
  | .frac, c =>
    if c.isDigit then some .frac else if c == 'e' || c == 'E' then some .expMark else none
  | .expMark, c =>
    if c == '+' || c == '-' then some .expSign else if c.isDigit then some .exp else none
  | .expSign, c => if c.isDigit then some .exp else none
  | .exp, c => if c.isDigit then some .exp else none

/-- Whether the characters scanned so far are a complete number. -/
def FloatScan.complete : FloatScan → Bool
  | .int | .frac | .exp => true
  | _ => false

/-- The input item of a `%f` conversion: the characters read while they
continue a decimal number, the scan reached, and the text left. -/
def floatItem : FloatScan → List Char → List Char × FloatScan × List Char
  | st, [] => ([], st, [])
  | st, c :: cs =>
    match st.next c with
    | none => ([], st, c :: cs)
    | some st1 => ((floatItem st1 cs).1.cons c, (floatItem st1 cs).2)

/-- One `%f` conversion of `sscanf`: white space is skipped, the longest run
of characters that continues a number is consumed, and the conversion succeeds
when that run is a complete number.  Only decimal numbers are modelled (no
`inf`, `nan` or hexadecimal form). -/
def scanf_f (inp : List Char) : Option (CFloat × List Char) :=
  let r := floatItem .start (inp.dropWhile isspace)
  if r.2.1.complete then some (⟨String.mk r.1⟩, r.2.2) else none

/-- The values that `n` successive `%f` conversions assign, in order, up to
the first conversion that fails.  White space between the conversions of the
format is skipped by the next conversion. -/
def scanFloats : Nat → List Char → List CFloat
  | 0, _ => []
  | n + 1, inp =>
    match scanf_f inp with
    | none => []
    | some (v, rest) => v :: scanFloats n rest

/-- The return value of `sscanf` with `n` `%f` conversions: `EOF` when the
input ends before the first conversion, else the number of values assigned. -/
def sscanfCount (n : Nat) (inp : List Char) : Int :=
  if inp.dropWhile isspace = [] then -1 else ((scanFloats n inp).length : Int)

/-! ## The scene graph -/

/-- A pointer to a scene-graph object: `none` is `NULL`, `some i` is the
object created for entry `i` of `nodeList`. -/
abbrev Ptr := Option Nat

/-- A typed parameter value of a node. -/
inductive ParamValue where
  | float (x : CFloat)
  | vec2f (x y : CFloat)
  | vec3f (x y z : CFloat)
  | vec4f (x y z w : CFloat)
  | int (x : Int)
  | vec2i (x y : Int)
  | vec3i (x y z : Int)
  | vec4i (x y z w : Int)
  deriving DecidableEq, Repr

/-- The object `sg::Material`: its name, its parameters by name, and the
counter that `refInc()` increments (the counting done by `Ref` handles
themselves is not modelled). -/
structure Material where
  name : String := ""
  param : List (String × ParamValue) := []
  refCount : Nat := 0
  deriving DecidableEq, Repr

/-- Modelled from the spec: `setParam` is declared in `SceneGraph.h`, which is
not part of the sources; the spec describes the parameters of a Material as
"a mapping from parameter name to a typed value" and a `param` as stored
"under that parameter name", so setting a name replaces its earlier value. -/
def Material.setParam (mat : Material) (name : String) (v : ParamValue) : Material :=
  { mat with param := (name, v) :: mat.param.filter (fun p => p.1 != name) }

/-- The value a Material holds under a parameter name. -/
def Material.getParam (mat : Material) (name : String) : Option ParamValue :=
  (mat.param.find? (fun p => p.1 == name)).map (fun p => p.2)

/-- Modelled from the spec: `refInc` belongs to the reference-counting base
class, which is not part of the sources; the spec calls it the "manual
increment-on-adoption step" that increments the shared-use count. -/
def Material.refInc (mat : Material) : Material :=
  { mat with refCount := mat.refCount + 1 }

/-- The object `sg::Transform`: the child pointer `node` and the matrix
entries that `sscanf` assigned, in the order `l.vx.x`, ..., `l.vz.z`, `p.x`,
`p.y`, `p.z`. -/
structure Transform where
  node : Ptr := none
  xfm : List CFloat := []
  deriving DecidableEq, Repr

/-- A `DataArray3f`, `DataArray2f` or `DataArray4i` over the binary file: the
byte offset of its first element from `binBasePtr`, and its element count. -/
structure DataArray where
  ofs : Nat
  num : Nat
  deriving DecidableEq, Repr

/-- The object `sg::PTMTriangleMesh`. -/
structure PTMTriangleMesh where
  vertex : Option DataArray := none
  normal : Option DataArray := none
  texcoord : Option DataArray := none
  triangle : Option DataArray := none
  materialList : List Nat := []
  deriving DecidableEq, Repr

/-- The object `sg::Group`. -/
structure Group where
  child : List Ptr := []
  deriving DecidableEq, Repr

/-- A scene-graph object: `sg::Node` with its dynamic type. -/
inductive Node where
  | material (m : Material)
  | transform (t : Transform)
  | mesh (m : PTMTriangleMesh)
  | group (g : Group)
  deriving DecidableEq, Repr

/-- The global `nodeList`: entry `i` is `none` for a `NULL` reference and
otherwise the object created for declaration `i`. -/
abbrev NodeList := List (Option Node)

/-- The object `sg::World`: its list `node` of root pointers. -/
structure World where
  node : List Ptr := []
  deriving DecidableEq, Repr

/-- What stops the parser. -/
inductive Fault where
  /-- A thrown `std::runtime_error` with its message. -/
  | runtime_error (what : String)
  /-- The macro `FATAL` with its message. -/
  | FATAL (what : String)
  /-- A failed `assert` on the named expression. -/
  | assertion (expr : String)
  /-- The access `nodeList[i]` with `i` not below `nodeList.size()`. -/
  | outOfRange (i : Nat)
  /-- The call of `atof` or `atol` on the `NULL` of an exhausted `strtok`. -/
  | nullToken
  deriving DecidableEq, Repr

/-- Modelled from the spec: the macro `FATAL` is defined in a header that is
not part of the sources; the spec lists its use ("wrong token count in a
Transform body") among the format errors, next to the thrown
`std::runtime_error`s. -/
def Fault.isFormatError : Fault → Bool
  | .runtime_error _ => true
  | .FATAL _ => true
  | _ => false

/-- The message of a format error. -/
def Fault.message : Fault → String
  | .runtime_error w => w
  | .FATAL w => w
  | .assertion e => e
  | _ => ""

/-- The pointer `nodeList[i].ptr` when entry `i` holds `e`. -/
def ptrOf (i : Nat) (e : Option Node) : Ptr :=
  match e with
  | none => none
  | some _ => some i

/-! ## `parseBGFscene` -/

/-- The attribute loop of a Material: `name` sets `mat->name`; `type` is kept
in a local variable that is never read. -/
def materialProps : Material → List XmlProp → Material
  | mat, [] => mat
  | mat, p :: ps =>
    if p.name = "name" then materialProps { mat with name := p.value } ps
    else if p.name = "type" then materialProps mat ps
    else materialProps mat ps

/-- The attribute loop of a `param`: the values of `childName` and `childType`
after it. -/
def paramAttrs : String → String → List XmlProp → String × String
  | childName, childType, [] => (childName, childType)
  | childName, childType, p :: ps =>
    if p.name = "name" then paramAttrs p.value childType ps
    else if p.name = "type" then paramAttrs childName p.value ps
    else paramAttrs childName childType ps

/-- The call `atof(s)` on a token pointer. -/
def atof : Option (List Char) → Except Fault CFloat
  | none => .error .nullToken
  | some s => .ok ⟨String.mk s⟩

/-- The call `atol(s)` on a token pointer, converted to `int32`. -/
def atol32 : Option (List Char) → Except Fault Int
  | none => .error .nullToken
  | some s => .ok (toInt32 (atol s))

/-- Whether `pat` occurs in `s`: `s.find(pat) != std::string::npos`. -/
def contains (pat : List Char) : List Char → Bool
  | [] => pat.isEmpty
  | c :: cs => pat.isPrefixOf (c :: cs) || contains pat cs

/-- The type dispatch of a `param`: `toks` are the tokens of its body, of
which `s` is the first and each `NEXT_TOK` the next. -/
def decodeParam (mat : Material) (childName childType : String)
    (toks : List (List Char)) : Except Fault Material :=
  if childType = "float" then
    (atof toks[0]?).bind fun x =>
    .ok (mat.setParam childName (.float x))
  else if childType = "float2" then
    (atof toks[0]?).bind fun x =>
    (atof toks[1]?).bind fun y =>
    .ok (mat.setParam childName (.vec2f x y))
  else if childType = "float3" then
    (atof toks[0]?).bind fun x =>
    (atof toks[1]?).bind fun y =>
    (atof toks[2]?).bind fun z =>
    .ok (mat.setParam childName (.vec3f x y z))
  else if childType = "float4" then
    (atof toks[0]?).bind fun x =>
    (atof toks[1]?).bind fun y =>
    (atof toks[2]?).bind fun z =>
    (atof toks[3]?).bind fun w =>
    .ok (mat.setParam childName (.vec4f x y z w))
  else if childType = "int" then
    if contains "map_".toList childName.toList = false then
      (atol32 toks[0]?).bind fun x =>
      .ok (mat.setParam childName (.int x))
    else .ok mat
  else if childType = "int2" then
    (atol32 toks[0]?).bind fun x =>
    (atol32 toks[1]?).bind fun y =>
    .ok (mat.setParam childName (.vec2i x y))
  else if childType = "int3" then
    (atol32 toks[0]?).bind fun x =>
    (atol32 toks[1]?).bind fun y =>
    (atol32 toks[2]?).bind fun z =>
    .ok (mat.setParam childName (.vec3i x y z))
  else if childType = "int4" then
    (atol32 toks[0]?).bind fun x =>
    (atol32 toks[1]?).bind fun y =>
    (atol32 toks[2]?).bind fun z =>
    (atol32 toks[3]?).bind fun w =>
    .ok (mat.setParam childName (.vec4i x y z w))
  else
    .error (.runtime_error
      ("unknown parameter type \'" ++ childType ++ "\' when parsing RIVL materials."))

/-- One child element of a Material.  A `param` is decoded; `textures` only
prints warnings; any other child is skipped. -/
def materialChild (mat : Material) (child : XmlNode) : Except Fault Material :=
  if child.name = "param" then
    decodeParam mat (paramAttrs "" "" child.prop).1 (paramAttrs "" "" child.prop).2
      (strtokAll (c_str child.content))
  else if child.name = "textures" then .ok mat
  else .ok mat

/-- The loop over the children of a Material: the material as the loop left
it and the fault that stopped it, if any. -/
def materialChildren : Material → List XmlNode → Material × Option Fault
  | mat, [] => (mat, none)
  | mat, child :: rest =>
    match materialChild mat child with
    | .error f => (mat, some f)
    | .ok mat1 => materialChildren mat1 rest

/-- The attribute loop of a Transform.  Each `child` attribute is read with
`atoi` into a `size_t`, `nodeList[childID]` is looked up in the table (which
already holds the Transform itself), the pointer found is asserted to be
non-null and stored in `xfm->node`. -/
def transformProps (nodeList : NodeList) : Transform → List XmlProp → Transform × Option Fault
  | xfm, [] => (xfm, none)
  | xfm, p :: ps =>
    if p.name = "child" then
      match nodeList[toSizeT (atoi (c_str p.value))]? with
      | none => (xfm, some (.outOfRange (toSizeT (atoi (c_str p.value)))))
      | some none => (xfm, some (.assertion "child"))
      | some (some _) =>
        transformProps nodeList { xfm with node := some (toSizeT (atoi (c_str p.value))) } ps
    else transformProps nodeList xfm ps

/-- The attribute loop of a `vertex`, `normal`, `texcoord` or `prim` child of
a Mesh: the values of `ofs` and `num` after it. -/
def ofsNum : Nat → Nat → List XmlProp → Nat × Nat
  | ofs, num, [] => (ofs, num)
  | ofs, num, p :: ps =>
    if p.name = "ofs" then ofsNum (toSizeT (atol (c_str p.value))) num ps
    else if p.name = "num" then ofsNum ofs (toSizeT (atol (c_str p.value))) ps
    else ofsNum ofs num ps

/-- The body shared by the `vertex`, `normal`, `texcoord` and `prim` branches:
`ofs` and `num` start as `size_t(-1)`, are read from the attributes, are
asserted to differ from `size_t(-1)`, and give the array at `binBasePtr+ofs`
with `num` elements. -/
def dataArray (child : XmlNode) : Except Fault DataArray :=
  if (ofsNum SIZE_MAX SIZE_MAX child.prop).1 = SIZE_MAX then
    .error (.assertion "ofs != size_t(-1)")
  else if (ofsNum SIZE_MAX SIZE_MAX child.prop).2 = SIZE_MAX then
    .error (.assertion "num != size_t(-1)")
  else .ok ⟨(ofsNum SIZE_MAX SIZE_MAX child.prop).1, (ofsNum SIZE_MAX SIZE_MAX child.prop).2⟩

/-- The `strtok` loop of a `materiallist`: each token is read with `atoi` into
a `size_t`, `nodeList[matID]` is cast to a Material, the cast is asserted to
be non-null, the Material gets a `refInc()` and is appended to
`mesh->materialList`.  The member `cast` of `Ref` is declared in a header
that is not part of the sources; it is taken as the spec describes it, a
checked cast that is null for an entry that is not a Material ("assert the
resolved node is in fact a Material"). -/
def materialList : PTMTriangleMesh → NodeList → List (List Char) →
    (PTMTriangleMesh × NodeList) × Option Fault
  | mesh, nodeList, [] => ((mesh, nodeList), none)
  | mesh, nodeList, s :: rest =>
    match nodeList[toSizeT (atoi s)]? with
    | none => ((mesh, nodeList), some (.outOfRange (toSizeT (atoi s))))
    | some (some (.material mat)) =>
      materialList { mesh with materialList := mesh.materialList ++ [toSizeT (atoi s)] }
        (nodeList.set (toSizeT (atoi s)) (some (.material mat.refInc))) rest
    | some _ => ((mesh, nodeList), some (.assertion "mat.ptr"))

/-- One child element of a Mesh. -/
def meshChild (mesh : PTMTriangleMesh) (nodeList : NodeList) (child : XmlNode) :
    (PTMTriangleMesh × NodeList) × Option Fault :=
  if child.name = "text" then ((mesh, nodeList), none)
  else if child.name = "vertex" then
    match dataArray child with
    | .error f => ((mesh, nodeList), some f)
    | .ok a => (({ mesh with vertex := some a }, nodeList), none)
  else if child.name = "normal" then
    match dataArray child with
    | .error f => ((mesh, nodeList), some f)
    | .ok a => (({ mesh with normal := some a }, nodeList), none)
  else if child.name = "texcoord" then
    match dataArray child with
    | .error f => ((mesh, nodeList), some f)
    | .ok a => (({ mesh with texcoord := some a }, nodeList), none)
  else if child.name = "prim" then
    match dataArray child with
    | .error f => ((mesh, nodeList), some f)
    | .ok a => (({ mesh with triangle := some a }, nodeList), none)
  else if child.name = "materiallist" then
    materialList mesh nodeList (strtokAll (c_str child.content))
  else
    ((mesh, nodeList), some (.runtime_error
      ("unknown child node type \'" ++ child.name ++ "\' for mesh node")))

/-- The loop over the children of a Mesh. -/
def meshChildren : PTMTriangleMesh → NodeList → List XmlNode →
    (PTMTriangleMesh × NodeList) × Option Fault
  | mesh, nodeList, [] => ((mesh, nodeList), none)
  | mesh, nodeList, child :: rest =>
    match meshChild mesh nodeList child with
    | (r, some f) => (r, some f)
    | (r, none) => meshChildren r.1 r.2 rest

/-- The `strtok` loop of a Group: each token is read with `atoi` into a
`size_t` and the pointer `nodeList[childID].ptr`, null or not, is appended to
`group->child`. -/
def groupChildren (nodeList : NodeList) : Group → List (List Char) → Group × Option Fault
  | group, [] => (group, none)
  | group, s :: rest =>
    match nodeList[toSizeT (atoi s)]? with
    | none => (group, some (.outOfRange (toSizeT (atoi s))))
    | some e =>
      groupChildren nodeList
        { group with child := group.child ++ [ptrOf (toSizeT (atoi s)) e] } rest

/-- The state of the loop over the children of `BGFscene`: the global
`nodeList` and the local `lastNode`. -/
structure Loop where
  nodeList : NodeList
  lastNode : Ptr
  deriving DecidableEq, Repr

/-- The `Material` branch.  The new Material is appended to `nodeList` first;
nothing reads the table while the Material is filled in, so the entry is
given with the state the object has when the branch ends or stops. -/
def declMaterial (st : Loop) (node : XmlNode) : Loop × Option Fault :=
  let r := materialChildren (materialProps {} node.prop) node.child
  (⟨st.nodeList ++ [some (.material r.1)], st.lastNode⟩, r.2)

/-- The `Transform` branch.  The new Transform is appended to `nodeList`
first, so the `child` lookups see a table whose last entry is the Transform
itself; the lookups read only pointers, so the entry is given with the state
the object has when the branch ends or stops. -/
def declTransform (st : Loop) (node : XmlNode) : Loop × Option Fault :=
  let r := transformProps (st.nodeList ++ [some (.transform {})]) {} node.prop
  match r.2 with
  | some f => (⟨st.nodeList ++ [some (.transform r.1)], st.lastNode⟩, some f)
  | none =>
    let xfm : Transform := { r.1 with xfm := scanFloats 12 (c_str node.content) }
    if sscanfCount 12 (c_str node.content) ≠ 12 then
      (⟨st.nodeList ++ [some (.transform xfm)], st.lastNode⟩,
        some (.FATAL "invalid number of elements in RIVL transform node"))
    else (⟨st.nodeList ++ [some (.transform xfm)], st.lastNode⟩, none)

/-- The `Mesh` branch.  The new Mesh is appended to `nodeList` first; while
its children are processed the table is read for the dynamic type of entries
and changed by `refInc()` on Materials, and the Mesh object is written to its
entry when the branch ends or stops.  A finished Mesh becomes `lastNode`. -/
def declMesh (st : Loop) (node : XmlNode) : Loop × Option Fault :=
  let r := meshChildren {} (st.nodeList ++ [some (.mesh {})]) node.child
  match r.2 with
  | some f => (⟨r.1.2.set st.nodeList.length (some (.mesh r.1.1)), st.lastNode⟩, some f)
  | none => (⟨r.1.2.set st.nodeList.length (some (.mesh r.1.1)), some st.nodeList.length⟩, none)

/-- The `Group` branch.  The new Group is appended to `nodeList` first, so the
child lookups see a table whose last entry is the Group itself.  A finished
Group becomes `lastNode`. -/
def declGroup (st : Loop) (node : XmlNode) : Loop × Option Fault :=
  if node.content = "" then
    (⟨st.nodeList ++ [some (.group {})], some st.nodeList.length⟩, none)
  else
    let r := groupChildren (st.nodeList ++ [some (.group {})]) {}
      (strtokAll (c_str node.content))
    match r.2 with
    | some f => (⟨st.nodeList ++ [some (.group r.1)], st.lastNode⟩, some f)
    | none => (⟨st.nodeList ++ [some (.group r.1)], some st.nodeList.length⟩, none)

/-- The body of the loop over the children of `BGFscene`: the dispatch on the
name of one child. -/
def parseDeclaration (st : Loop) (node : XmlNode) : Loop × Option Fault :=
  if node.name = "text" then (st, none)
  else if node.name = "Texture2D" then (⟨st.nodeList ++ [none], st.lastNode⟩, none)
  else if node.name = "Material" then declMaterial st node
  else if node.name = "Transform" then declTransform st node
  else if node.name = "Mesh" then declMesh st node
  else if node.name = "Group" then declGroup st node
  else (⟨st.nodeList ++ [none], st.lastNode⟩, none)

/-- The loop over the children of `BGFscene`, stopped by the first fault. -/
def parseDeclarations : Loop → List XmlNode → Loop × Option Fault
  | st, [] => (st, none)
  | st, node :: rest =>
    match parseDeclaration st node with
    | (st1, some f) => (st1, some f)
    | (st1, none) => parseDeclarations st1 rest

/-- What a call of `parseBGFscene` leaves: the global `nodeList`, the World
it was given, and the fault that stopped it, if any. -/
structure Outcome where
  nodeList : NodeList
  world : World
  fault : Option Fault
  deriving DecidableEq, Repr

/-- The function `parseBGFscene(world, root)`, run with the global `nodeList`
as it stands at the call. -/
def parseBGFscene (world : World) (root : XmlNode) (nodeList : NodeList) : Outcome :=
  if root.name ≠ "BGFscene" then
    ⟨nodeList, world, some (.runtime_error "XML file is not a RIVL model !?")⟩
  else if root.child.isEmpty then
    ⟨nodeList, world, some (.runtime_error "emply RIVL model !?")⟩
  else
    match parseDeclarations ⟨nodeList, none⟩ root.child with
    | (st, some f) => ⟨st.nodeList, world, some f⟩
    | (st, none) => ⟨st.nodeList, { world with node := world.node ++ [st.lastNode] }, none⟩

/-! ## `importRIVL` -/

/-- The document that `xml::readXML` returns: `xml::XMLDoc` with its list
`child` of outermost elements. -/
structure XMLDoc where
  child : List XmlNode

/-- What a call of `importRIVL` leaves: the global `nodeList`, the World it
returns (`none` when it does not return), and the fault that stopped it, if
any. -/
structure ImportOutcome where
  nodeList : NodeList
  world : Option World
  fault : Option Fault

/-- The function `importRIVL(fileName)` from the point where `xml::readXML`
has returned the document: the check that the document has exactly one
outermost element, named `BGFscene`, then `parseBGFscene` on a new World.
The opening and mapping of the binary file, which only set `binBasePtr`, and
`xml::readXML` itself are not modelled. -/
def importRIVL (doc : XMLDoc) (nodeList : NodeList) : ImportOutcome :=
  match doc.child with
  | [root_element] =>
    if root_element.name ≠ "BGFscene" then
      ⟨nodeList, none,
        some (.runtime_error "could not parse RIVL file: Not in RIVL format!?")⟩
    else
      match (parseBGFscene {} root_element nodeList).fault with
      | some f => ⟨(parseBGFscene {} root_element nodeList).nodeList, none, some f⟩
      | none =>
        ⟨(parseBGFscene {} root_element nodeList).nodeList,
          some (parseBGFscene {} root_element nodeList).world, none⟩
  | _ =>
    ⟨nodeList, none, some (.runtime_error "could not parse RIVL file: Not in RIVL format!?")⟩

/-! ## Vocabulary of the properties -/

/-- The dynamic type of a table entry. -/
inductive Kind where
  | material | transform | mesh | group
  deriving DecidableEq, Repr

/-- The dynamic type of the object of a table entry; `none` for a null entry. -/
def kindOf : Option Node → Option Kind
  | none => none
  | some (.material _) => some .material
  | some (.transform _) => some .transform
  | some (.mesh _) => some .mesh
  | some (.group _) => some .group

/-- The kind of object that a top-level declaration of this name creates;
`none` when its table entry is a null placeholder. -/
def declKind (name : String) : Option Kind :=
  if name = "Material" then some .material
  else if name = "Transform" then some .transform
  else if name = "Mesh" then some .mesh
  else if name = "Group" then some .group
  else none

/-- The top-level children that get a table entry: all but those named `text`. -/
def declarations (children : List XmlNode) : List XmlNode :=
  children.filter (fun n => n.name != "text")

/-- The number of components of a parameter type tag. -/
def componentCount (ty : String) : Option Nat :=
  if ty = "float" ∨ ty = "int" then some 1
  else if ty = "float2" ∨ ty = "int2" then some 2
  else if ty = "float3" ∨ ty = "int3" then some 3
  else if ty = "float4" ∨ ty = "int4" then some 4
  else none

/-- The value that the spec assigns to a type tag and the tokens of its
components: a float component is the `float` of its token, an integer
component the `int32` of its token. -/
def specValue (ty : String) : List (List Char) → Option ParamValue
  | [x] =>
    if ty = "float" then some (.float ⟨String.mk x⟩)
    else if ty = "int" then some (.int (toInt32 (atol x))) else none
  | [x, y] =>
    if ty = "float2" then some (.vec2f ⟨String.mk x⟩ ⟨String.mk y⟩)
    else if ty = "int2" then some (.vec2i (toInt32 (atol x)) (toInt32 (atol y))) else none
  | [x, y, z] =>
    if ty = "float3" then some (.vec3f ⟨String.mk x⟩ ⟨String.mk y⟩ ⟨String.mk z⟩)
    else if ty = "int3" then
      some (.vec3i (toInt32 (atol x)) (toInt32 (atol y)) (toInt32 (atol z)))
    else none
  | [x, y, z, w] =>
    if ty = "float4" then
      some (.vec4f ⟨String.mk x⟩ ⟨String.mk y⟩ ⟨String.mk z⟩ ⟨String.mk w⟩)
    else if ty = "int4" then
      some (.vec4i (toInt32 (atol x)) (toInt32 (atol y)) (toInt32 (atol z)) (toInt32 (atol w)))
    else none
  | _ => none

/-- Whether a token is a decimal floating-point number: an optional sign,
digits with an optional point (at least one digit), and an optional exponent
with at least one digit, with nothing before or after. -/
def isNumber (t : List Char) : Bool :=
  (floatItem .start t).2.1.complete && (floatItem .start t).2.2.isEmpty

/-- The references of the object of a table entry, at index `i`, point
backwards: the child of a Transform and the children of a Group were resolved
from indices up to `i`, the materials of a Mesh from indices below `i`. -/
def EntryRefsBack (i : Nat) : Option Node → Prop
  | some (.transform t) => ∀ j, t.node = some j → j ≤ i
  | some (.group g) => ∀ j, some j ∈ g.child → j ≤ i
  | some (.mesh m) => ∀ j, j ∈ m.materialList → j < i
  | _ => True

/-- Every entry of the table has its references pointing backwards. -/
def RefsBack (nodeList : NodeList) : Prop :=
  ∀ (i : Nat) (e : Option Node), nodeList[i]? = some e → EntryRefsBack i e

/-- What the processing of a Mesh does to the table and to the material list
of the Mesh: an entry of the new table is the old entry or a Material, a
member of the new material list is an old member or the index of a Material,
and the kinds of the entries are kept. -/
def MeshStep (mesh : PTMTriangleMesh) (nodeList : NodeList)
    (r : PTMTriangleMesh × NodeList) : Prop :=
  (∀ (i : Nat) (e : Option Node), r.2[i]? = some e →
    nodeList[i]? = some e ∨ ∃ m, e = some (.material m)) ∧
  (∀ j, j ∈ r.1.materialList →
    j ∈ mesh.materialList ∨ (nodeList.map kindOf)[j]? = some (some Kind.material)) ∧
  r.2.map kindOf = nodeList.map kindOf

/-! ## Example documents -/

/-- A `param` of type `float3` named `kd` with body `1.0 2.0 3.0`. -/
def exParamFloat3 : XmlNode :=
  .mk "param" "1.0 2.0 3.0" [⟨"name", "kd"⟩, ⟨"type", "float3"⟩] []

/-- A `param` of type `int` named `metallic` with body `7`. -/
def exParamInt : XmlNode :=
  .mk "param" "7" [⟨"name", "metallic"⟩, ⟨"type", "int"⟩] []

/-- A `param` of type `int` named `map_kd` with body `0`. -/
def exParamMap : XmlNode :=
  .mk "param" "0" [⟨"name", "map_kd"⟩, ⟨"type", "int"⟩] []

/-- A `param` without a `type` attribute. -/
def exParamUntyped : XmlNode :=
  .mk "param" "1" [⟨"name", "ks"⟩] []

/-- A Material whose only child is a `param` without a `type` attribute. -/
def exMaterialUntyped : XmlNode :=
  .mk "Material" "" [⟨"name", "m"⟩] [exParamUntyped]

/-- A document with one Material, whose `param` has no `type` attribute. -/
def exDocUntyped : XmlNode :=
  .mk "BGFscene" "" [] [exMaterialUntyped]

/-- A document with every kind of top-level child: a `text` child, a
Material with two `param`s, a Texture2D, a second Material, a Mesh with a
`vertex` array and a `materiallist`, a Transform, a Group, and a declaration
of unknown name. -/
def exDocScene : XmlNode :=
  .mk "BGFscene" "" [] [
    .mk "text" "" [] [],
    .mk "Material" "" [⟨"name", "m0"⟩] [exParamFloat3, exParamInt],
    .mk "Texture2D" "" [] [],
    .mk "Material" "" [] [],
    .mk "Mesh" "" [] [
      .mk "vertex" "" [⟨"ofs", "0"⟩, ⟨"num", "4"⟩] [],
      .mk "materiallist" "0 2 0" [] []],
    .mk "Transform" "1 0 0 0 1 0 0 0 1 0 0 0" [⟨"child", "3"⟩] [],
    .mk "Group" "4 1 3" [] [],
    .mk "Foo" "" [] []]

/-- A document with two Materials and no Mesh or Group. -/
def exDocMaterials : XmlNode :=
  .mk "BGFscene" "" [] [
    .mk "Material" "" [⟨"name", "m0"⟩] [exParamFloat3],
    .mk "Material" "" [⟨"name", "m1"⟩] []]

/-- A `materiallist` child with body `0 2 0`. -/
def exMaterialList : XmlNode :=
  .mk "materiallist" "0 2 0" [] []

/-- A table of a Material, a null placeholder, a Material and a Mesh. -/
def exTable : NodeList :=
  [some (.material { name := "a" }), none, some (.material { name := "b" }), some (.mesh {})]

/-- A document whose Transform names its own table index 0 as child and
whose Group names its own table index 1 as child. -/
def exDocSelf : XmlNode :=
  .mk "BGFscene" "" [] [
    .mk "Transform" "1 0 0 0 1 0 0 0 1 0 0 0" [⟨"child", "0"⟩] [],
    .mk "Group" "1" [] []]

/-- A document of a Material and a Transform of it whose body has thirteen
numbers. -/
def exDocLong : XmlNode :=
  .mk "BGFscene" "" [] [
    .mk "Material" "" [] [],
    .mk "Transform" "1 0 0 0 1 0 0 0 1 0 0 0 5" [⟨"child", "0"⟩] []]

/-- A Transform whose body has eleven numbers. -/
def exTransformShort : XmlNode :=
  .mk "Transform" "1 0 0 0 1 0 0 0 1 0 0" [⟨"child", "0"⟩] []

/-- A document of a Material and a Transform of it whose body has eleven
numbers. -/
def exDocShort : XmlNode :=
  .mk "BGFscene" "" [] [.mk "Material" "" [] [], exTransformShort]

/-- The pointer `nodeList[i].ptr` for an index inside the table: null for a
placeholder entry, else the pointer to the object of entry `i`. -/
def resolve (nodeList : NodeList) (i : Nat) : Ptr :=
  (nodeList[i]?).bind (ptrOf i)

/-- A Group with an empty body. -/
def exGroupEmpty : XmlNode :=
  .mk "Group" "" [] []

/-- A Group whose body names the indices 1, 0 and 2. -/
def exGroupThree : XmlNode :=
  .mk "Group" "1 0\n2" [] []

/-- A document whose only declaration is a Group that names index 5. -/
def exDocGroupFar : XmlNode :=
  .mk "BGFscene" "" [] [.mk "Group" "5" [] []]

/-- The value of the last attribute of the given name, if there is one. -/
def lastAttr (name : String) : List XmlProp → Option String
  | [] => none
  | p :: ps =>
    match lastAttr name ps with
    | some v => some v
    | none => if p.name = name then some p.value else none

/-- A `vertex` child with `ofs="0"` and `num="4"`. -/
def exVertex : XmlNode :=
  .mk "vertex" "" [⟨"ofs", "0"⟩, ⟨"num", "4"⟩] []

/-- A `prim` child with `ofs` but without `num`. -/
def exPrimNoNum : XmlNode :=
  .mk "prim" "" [⟨"ofs", "48"⟩] []

/-- A Mesh child of a name the importer does not know. -/
def exColor : XmlNode :=
  .mk "color" "" [⟨"ofs", "0"⟩, ⟨"num", "4"⟩] []

/-- A `materiallist` child with body `0 1 2`. -/
def exMaterialListBad : XmlNode :=
  .mk "materiallist" "0 1 2" [] []

/-- A Mesh with a `vertex` child and then a child of unknown name. -/
def exMeshColor : XmlNode :=
  .mk "Mesh" "" [] [exVertex, exColor]

/-- A document whose Mesh has a child of unknown name. -/
def exDocColor : XmlNode :=
  .mk "BGFscene" "" [] [.mk "Material" "" [] [], exMeshColor]

/-- A Mesh with a `vertex` child and then a `prim` child without `num`. -/
def exMeshNoNum : XmlNode :=
  .mk "Mesh" "" [] [exVertex, exPrimNoNum]

/-- A document whose Mesh has a `prim` child without `num`. -/
def exDocNoNum : XmlNode :=
  .mk "BGFscene" "" [] [.mk "Material" "" [] [], exMeshNoNum]

/-- A Mesh whose `materiallist` names a Material, a placeholder and itself. -/
def exMeshBadList : XmlNode :=
  .mk "Mesh" "" [] [exVertex, exMaterialListBad]

/-- A document of a Material, a Texture2D and a Mesh whose `materiallist`
names the Material and then the placeholder of the Texture2D. -/
def exDocBadList : XmlNode :=
  .mk "BGFscene" "" [] [.mk "Material" "" [] [], .mk "Texture2D" "" [] [], exMeshBadList]

/-- A document whose only declaration is a Transform without a `child`
attribute and with twelve numbers in its body. -/
def exDocNoChild : XmlNode :=
  .mk "BGFscene" "" [] [.mk "Transform" "1 0 0 0 1 0 0 0 1 0 0 0" [] []]

/-- A document whose `BGFscene` element has no children. -/
def exXmlEmpty : XMLDoc :=
  ⟨[.mk "BGFscene" "" [] []]⟩

/-- A table entry without the reference count of its Material: what
`refInc()` cannot change. -/
def eraseCount : Option Node → Option Node
  | some (.material m) => some (.material { m with refCount := 0 })
  | e => e

/-- The table `tB` shows, at every index of the table `tA`, an entry of the
same kind as `tA` does. -/
def Agree (tA tB : NodeList) : Prop :=
  ∀ j, j < tA.length → (tB.map kindOf)[j]? = (tA.map kindOf)[j]?

/-- The example scene as a document. -/
def exXmlScene : XMLDoc :=
  ⟨[exDocScene]⟩

/-- A `param` of type `float3` named `kd` whose body has two numbers. -/
def exParamShort : XmlNode :=
  .mk "param" " 1.0\t2.0\n" [⟨"name", "kd"⟩, ⟨"type", "float3"⟩] []

/-! ## Auxiliary lemmas -/

theorem getParam_setParam (mat : Material) (name : String) (v : ParamValue) :
    (mat.setParam name v).getParam name = some v := by
  simp [Material.setParam, Material.getParam]

theorem componentCount_cases {ty : String} {k : Nat} (h : componentCount ty = some k) :
    (ty = "float" ∧ k = 1) ∨ (ty = "int" ∧ k = 1) ∨ (ty = "float2" ∧ k = 2) ∨
    (ty = "int2" ∧ k = 2) ∨ (ty = "float3" ∧ k = 3) ∨ (ty = "int3" ∧ k = 3) ∨
    (ty = "float4" ∧ k = 4) ∨ (ty = "int4" ∧ k = 4) := by
  unfold componentCount at h
  split_ifs at h with h1 h2 h3 h4 <;> simp only [Option.some.injEq] at h <;> subst h
  · rcases h1 with h1 | h1 <;> simp [h1]
  · rcases h2 with h2 | h2 <;> simp [h2]
  · rcases h3 with h3 | h3 <;> simp [h3]
  · rcases h4 with h4 | h4 <;> simp [h4]

theorem exists_cons_of_length {α : Type} :
    ∀ (k : Nat) (l : List α), k ≤ l.length → ∃ a b, a.length = k ∧ l = a ++ b ∧ l.take k = a := by
  intro k l h
  exact ⟨l.take k, l.drop k, by simp [h], by simp, rfl⟩

theorem decodeParam_value (mat : Material) (name ty : String) (toks : List (List Char))
    (k : Nat) (hty : componentCount ty = some k) (hlen : k ≤ toks.length)
    (hmap : ty = "int" → contains "map_".toList name.toList = false) :
    ∃ v, specValue ty (toks.take k) = some v ∧
      decodeParam mat name ty toks = .ok (mat.setParam name v) := by
  obtain ⟨a, b, ha, rfl, htake⟩ := exists_cons_of_length k toks hlen
  rw [htake]
  rcases componentCount_cases hty with h | h | h | h | h | h | h | h <;>
    obtain ⟨rfl, rfl⟩ := h
  · obtain ⟨x, rfl⟩ := List.length_eq_one.mp ha
    simp [specValue, decodeParam, atof, Except.bind]
  · obtain ⟨x, rfl⟩ := List.length_eq_one.mp ha
    have hm := hmap rfl
    simp at hm
    simp [specValue, decodeParam, atol32, Except.bind, hm]
  · obtain ⟨x, y, rfl⟩ := List.length_eq_two.mp ha
    simp [specValue, decodeParam, atof, Except.bind]
  · obtain ⟨x, y, rfl⟩ := List.length_eq_two.mp ha
    simp [specValue, decodeParam, atol32, Except.bind]
  · obtain ⟨x, y, z, rfl⟩ := List.length_eq_three.mp ha
    simp [specValue, decodeParam, atof, Except.bind]
  · obtain ⟨x, y, z, rfl⟩ := List.length_eq_three.mp ha
    simp [specValue, decodeParam, atol32, Except.bind]
  · match a, ha with
    | [x, y, z, w], _ => simp [specValue, decodeParam, atof, Except.bind]
  · match a, ha with
    | [x, y, z, w], _ => simp [specValue, decodeParam, atol32, Except.bind]

theorem contains_iff_infix (pat s : List Char) : contains pat s = true ↔ pat <:+: s := by
  induction s with
  | nil => simp [contains, List.isEmpty_iff]
  | cons c cs ih =>
    simp only [contains, Bool.or_eq_true, ih, List.infix_cons_iff, List.isPrefixOf_iff_prefix]

theorem parseDeclarations_append (st : Loop) (pre post : List XmlNode) :
    parseDeclarations st (pre ++ post) =
      match parseDeclarations st pre with
      | (st1, some f) => (st1, some f)
      | (st1, none) => parseDeclarations st1 post := by
  induction pre generalizing st with
  | nil => simp [parseDeclarations]
  | cons d ds ih =>
    simp only [List.cons_append, parseDeclarations]
    rcases h : parseDeclaration st d with ⟨st1, _ | f⟩
    · simp [ih]
    · simp

theorem parseDeclarations_fault_at {st st1 : Loop} {pre : List XmlNode} {d : XmlNode}
    {f : Fault} (post : List XmlNode) (hpre : parseDeclarations st pre = (st1, none))
    (hd : (parseDeclaration st1 d).2 = some f) :
    parseDeclarations st (pre ++ d :: post) = ((parseDeclaration st1 d).1, some f) := by
  rw [parseDeclarations_append, hpre]
  simp only [parseDeclarations]
  rcases h : parseDeclaration st1 d with ⟨st2, _ | g⟩
  · rw [h] at hd; simp at hd
  · rw [h] at hd; simp at hd; simp [hd]

theorem materialChildren_append (mat : Material) (pre post : List XmlNode) :
    materialChildren mat (pre ++ post) =
      match materialChildren mat pre with
      | (mat1, some f) => (mat1, some f)
      | (mat1, none) => materialChildren mat1 post := by
  induction pre generalizing mat with
  | nil => simp [materialChildren]
  | cons d ds ih =>
    simp only [List.cons_append, materialChildren]
    rcases h : materialChild mat d with f | mat1
    · simp
    · simp [ih]

theorem parseBGFscene_fault_of {world : World} {root : XmlNode} {nodeList : NodeList}
    {st : Loop} {f : Fault} (hroot : root.name = "BGFscene") (hne : root.child ≠ [])
    (h : parseDeclarations ⟨nodeList, none⟩ root.child = (st, some f)) :
    parseBGFscene world root nodeList = ⟨st.nodeList, world, some f⟩ := by
  simp [parseBGFscene, hroot, hne, h]

theorem parseBGFscene_ok_of {world : World} {root : XmlNode} {nodeList : NodeList}
    {st : Loop} (hroot : root.name = "BGFscene") (hne : root.child ≠ [])
    (h : parseDeclarations ⟨nodeList, none⟩ root.child = (st, none)) :
    parseBGFscene world root nodeList =
      ⟨st.nodeList, { world with node := world.node ++ [st.lastNode] }, none⟩ := by
  simp [parseBGFscene, hroot, hne, h]

theorem set_eq_self_of_getElem? {α : Type} {l : List α} {i : Nat} {a : α}
    (h : l[i]? = some a) : l.set i a = l := by
  induction l generalizing i with
  | nil => simp
  | cons x xs ih =>
    cases i with
    | zero => simp at h; simp [h]
    | succ n => simp at h; simp [ih h]

theorem map_set_of_same {α β : Type} (f : α → β) {l : List α} {i : Nat} {a b : α}
    (h : l[i]? = some a) (hf : f b = f a) : (l.set i b).map f = l.map f := by
  rw [List.map_set]
  apply set_eq_self_of_getElem?
  simp [List.getElem?_map, h, hf]

theorem materialList_kinds (toks : List (List Char)) :
    ∀ (mesh : PTMTriangleMesh) (nodeList : NodeList),
      (materialList mesh nodeList toks).1.2.map kindOf = nodeList.map kindOf := by
  induction toks with
  | nil => intro mesh nodeList; rfl
  | cons s rest ih =>
    intro mesh nodeList
    simp only [materialList]
    rcases h : nodeList[toSizeT (atoi s)]? with _ | _ | n
    · rfl
    · rfl
    · cases n with
      | material mat =>
        simp only []
        rw [ih]
        exact map_set_of_same kindOf h rfl
      | transform t => rfl
      | mesh m => rfl
      | group g => rfl

theorem meshChild_kinds (mesh : PTMTriangleMesh) (nodeList : NodeList) (child : XmlNode) :
    (meshChild mesh nodeList child).1.2.map kindOf = nodeList.map kindOf := by
  unfold meshChild
  split_ifs
  · rfl
  · cases dataArray child <;> rfl
  · cases dataArray child <;> rfl
  · cases dataArray child <;> rfl
  · cases dataArray child <;> rfl
  · exact materialList_kinds _ _ _
  · rfl

theorem meshChildren_kinds (children : List XmlNode) :
    ∀ (mesh : PTMTriangleMesh) (nodeList : NodeList),
      (meshChildren mesh nodeList children).1.2.map kindOf = nodeList.map kindOf := by
  induction children with
  | nil => intro mesh nodeList; rfl
  | cons c rest ih =>
    intro mesh nodeList
    simp only [meshChildren]
    have hc := meshChild_kinds mesh nodeList c
    rcases h : meshChild mesh nodeList c with ⟨r, _ | f⟩
    · rw [h] at hc
      simp only []
      rw [ih, hc]
    · rw [h] at hc
      exact hc

/-- What a declaration adds to the kinds of the table: nothing for `text`,
else the kind that goes with its name (on a fault too, since the entry is
appended first). -/
theorem parseDeclaration_kinds (st : Loop) (d : XmlNode) :
    (parseDeclaration st d).1.nodeList.map kindOf =
      st.nodeList.map kindOf ++ (if d.name = "text" then [] else [declKind d.name]) := by
  unfold parseDeclaration
  split_ifs with h1 h2 h3 h4 h5 h6
  · simp
  · simp [declKind, h2, kindOf]
  · simp [declMaterial, declKind, h3, kindOf]
  · simp only [declTransform]
    split
    · simp [declKind, h4, kindOf]
    · split_ifs <;> simp [declKind, h4, kindOf]
  · have hk := meshChildren_kinds d.child {} (st.nodeList ++ [some (.mesh {})])
    have hlen : ((meshChildren {} (st.nodeList ++ [some (.mesh {})]) d.child).1.2).length =
        st.nodeList.length + 1 := by
      have := congrArg List.length hk
      simpa using this
    have hset : ∀ x : PTMTriangleMesh,
        (((meshChildren {} (st.nodeList ++ [some (.mesh {})]) d.child).1.2).set
          st.nodeList.length (some (.mesh x))).map kindOf =
        st.nodeList.map kindOf ++ [some Kind.mesh] := by
      intro x
      rw [List.map_set, hk]
      simp [kindOf]
    simp only [declMesh]
    split <;> simp [hset, declKind, h5]
  · simp only [declGroup]
    split_ifs
    · simp [declKind, h6, kindOf]
    · split <;> simp [declKind, h6, kindOf]
  · simp [declKind, h3, h4, h5, h6, kindOf]

theorem parseDeclarations_kinds (ds : List XmlNode) :
    ∀ (st st1 : Loop), parseDeclarations st ds = (st1, none) →
      st1.nodeList.map kindOf =
        st.nodeList.map kindOf ++ (declarations ds).map (fun d => declKind d.name) := by
  induction ds with
  | nil =>
    intro st st1 h
    simp [parseDeclarations] at h
    simp [← h, declarations]
  | cons d rest ih =>
    intro st st1 h
    simp only [parseDeclarations] at h
    have hk := parseDeclaration_kinds st d
    rcases hd : parseDeclaration st d with ⟨st2, _ | f⟩
    · rw [hd] at h hk
      simp only [] at h
      rw [ih st2 st1 h, hk]
      by_cases ht : d.name = "text"
      · simp [declarations, ht]
      · simp [declarations, ht]
    · rw [hd] at h
      simp at h

theorem parseBGFscene_accepted {world : World} {root : XmlNode} {nodeList : NodeList}
    (h : (parseBGFscene world root nodeList).fault = none) :
    root.name = "BGFscene" ∧ root.child ≠ [] ∧
    ∃ st, parseDeclarations ⟨nodeList, none⟩ root.child = (st, none) ∧
      parseBGFscene world root nodeList =
        ⟨st.nodeList, { world with node := world.node ++ [st.lastNode] }, none⟩ := by
  unfold parseBGFscene at h ⊢
  by_cases h1 : root.name = "BGFscene"
  · by_cases h2 : root.child = []
    · simp [h1, h2] at h
    · rcases hp : parseDeclarations ⟨nodeList, none⟩ root.child with ⟨st, _ | f⟩
      · refine ⟨h1, h2, st, rfl, ?_⟩
        simp [h1, h2, hp]
      · simp [h1, h2, hp] at h
  · simp [h1] at h

theorem parseDeclaration_lastNode {st st1 : Loop} {d : XmlNode}
    (h : parseDeclaration st d = (st1, none)) :
    st1.lastNode =
      if d.name = "Mesh" ∨ d.name = "Group" then some st.nodeList.length else st.lastNode := by
  unfold parseDeclaration at h
  split_ifs at h with h1 h2 h3 h4 h5 h6
  · simp only [Prod.mk.injEq, and_true] at h
    simp [← h, h1]
  · simp only [Prod.mk.injEq, and_true] at h
    simp [← h, h2]
  · simp only [declMaterial, Prod.mk.injEq] at h
    simp [← h.1, h3]
  · simp only [declTransform] at h
    split at h
    · simp at h
    · split_ifs at h with hc
      · simp at h
      · simp only [Prod.mk.injEq, and_true] at h
        simp [← h, h4]
  · simp only [declMesh] at h
    split at h
    · simp at h
    · simp only [Prod.mk.injEq, and_true] at h
      simp [← h, h5]
  · simp only [declGroup] at h
    split_ifs at h
    · simp only [Prod.mk.injEq, and_true] at h
      simp [← h, h6]
    · split at h
      · simp at h
      · simp only [Prod.mk.injEq, and_true] at h
        simp [← h, h6]
  · simp only [Prod.mk.injEq, and_true] at h
    simp [← h, h5, h6]

theorem parseDeclarations_lastNode_keep (ds : List XmlNode) :
    ∀ (st st1 : Loop), parseDeclarations st ds = (st1, none) →
      (∀ d ∈ ds, d.name ≠ "Mesh" ∧ d.name ≠ "Group") → st1.lastNode = st.lastNode := by
  induction ds with
  | nil =>
    intro st st1 h _
    simp [parseDeclarations] at h
    simp [← h]
  | cons d rest ih =>
    intro st st1 h hds
    simp only [parseDeclarations] at h
    rcases hd : parseDeclaration st d with ⟨st2, _ | f⟩
    · rw [hd] at h
      simp only [] at h
      have h2 := parseDeclaration_lastNode hd
      have hdn := hds d (List.mem_cons_self _ _)
      simp only [hdn.1, hdn.2, or_self, if_false] at h2
      rw [ih st2 st1 h (fun x hx => hds x (List.mem_cons_of_mem _ hx)), h2]
    · rw [hd] at h
      simp at h

theorem accepted_entry_kind {world : World} {root : XmlNode}
    (h : (parseBGFscene world root []).fault = none) (k : Nat) (d : XmlNode)
    (hk : (declarations root.child)[k]? = some d) :
    ∃ e, (parseBGFscene world root []).nodeList[k]? = some e ∧ kindOf e = declKind d.name := by
  obtain ⟨_, _, st, hst, hout⟩ := parseBGFscene_accepted h
  have hkinds := parseDeclarations_kinds _ _ _ hst
  simp only [List.map_nil, List.nil_append] at hkinds
  have hk2 := congrArg (fun l => l[k]?) hkinds
  simp only [List.getElem?_map, hk, Option.map_some'] at hk2
  rw [hout]
  simp only []
  rcases he : st.nodeList[k]? with _ | e
  · rw [he] at hk2; simp at hk2
  · rw [he] at hk2
    simp only [Option.map_some', Option.some.injEq] at hk2
    exact ⟨e, rfl, hk2⟩

theorem entry_of_kind {e : Option Node} {name : String} (hk : kindOf e = declKind name) :
    (name = "Material" → ∃ m, e = some (.material m)) ∧
    (name = "Transform" → ∃ t, e = some (.transform t)) ∧
    (name = "Mesh" → ∃ m, e = some (.mesh m)) ∧
    (name = "Group" → ∃ g, e = some (.group g)) ∧
    (e = none ↔ (name ≠ "Material" ∧ name ≠ "Transform" ∧ name ≠ "Mesh" ∧
      name ≠ "Group")) := by
  unfold declKind at hk
  rcases e with _ | n
  · simp only [kindOf] at hk
    split_ifs at hk with h1 h2 h3 h4
    simp [h1, h2, h3, h4]
  · cases n <;> simp only [kindOf] at hk <;> split_ifs at hk with h1 h2 h3 h4 <;>
      simp_all

theorem materialList_ok (toks : List (List Char)) :
    ∀ (mesh : PTMTriangleMesh) (nodeList : NodeList),
      (∀ s ∈ toks, ∃ m, nodeList[toSizeT (atoi s)]? = some (some (.material m))) →
      ∃ nodeList1,
        materialList mesh nodeList toks =
          (({ mesh with materialList :=
              mesh.materialList ++ toks.map (fun s => toSizeT (atoi s)) }, nodeList1), none) ∧
        nodeList1.length = nodeList.length ∧
        ∀ j : Nat,
          (∀ m : Material, nodeList[j]? = some (some (.material m)) →
            nodeList1[j]? = some (some (.material { m with refCount :=
              m.refCount + (toks.map (fun s => toSizeT (atoi s))).count j }))) ∧
          ((∀ m : Material, nodeList[j]? ≠ some (some (.material m))) →
            nodeList1[j]? = nodeList[j]?) := by
  induction toks with
  | nil =>
    intro mesh nodeList _
    exact ⟨nodeList, by simp [materialList], rfl, fun j => ⟨fun m hm => by simpa using hm,
      fun _ => rfl⟩⟩
  | cons s rest ih =>
    intro mesh nodeList htok
    obtain ⟨m0, hm0⟩ := htok s (List.mem_cons_self _ _)
    have hlt : toSizeT (atoi s) < nodeList.length := by
      by_contra hge
      rw [List.getElem?_eq_none (Nat.le_of_not_lt hge)] at hm0
      exact absurd hm0 (by simp)
    have hrest : ∀ s1 ∈ rest, ∃ m,
        (nodeList.set (toSizeT (atoi s)) (some (.material m0.refInc)))[toSizeT (atoi s1)]? =
          some (some (.material m)) := by
      intro s1 hs1
      obtain ⟨m1, hm1⟩ := htok s1 (List.mem_cons_of_mem _ hs1)
      rw [List.getElem?_set]
      by_cases he : toSizeT (atoi s) = toSizeT (atoi s1)
      · exact ⟨m0.refInc, by rw [if_pos he, if_pos hlt]⟩
      · exact ⟨m1, by simp [he, hm1]⟩
    obtain ⟨nodeList1, hrun, hlen, hent⟩ :=
      ih { mesh with materialList := mesh.materialList ++ [toSizeT (atoi s)] }
        (nodeList.set (toSizeT (atoi s)) (some (.material m0.refInc))) hrest
    refine ⟨nodeList1, ?_, ?_, ?_⟩
    · simp only [materialList, hm0, hrun]
      simp
    · simpa using hlen
    · intro j
      constructor
      · intro m hm
        by_cases hj : toSizeT (atoi s) = j
        · subst hj
          rw [hm0] at hm
          simp only [Option.some.injEq, Node.material.injEq] at hm
          subst hm
          have h1 := (hent (toSizeT (atoi s))).1 m0.refInc (by simp [List.getElem?_set, hlt])
          rw [h1]
          simp [Material.refInc, Nat.add_assoc, Nat.add_comm]
        · have h1 := (hent j).1 m (by simp [List.getElem?_set, hj, hm])
          rw [h1]
          have hj2 : ¬ (j = toSizeT (atoi s)) := fun h => hj h.symm
          simp [List.count_cons, hj]
      · intro hnm
        have hj : toSizeT (atoi s) ≠ j := by
          intro h
          subst h
          exact hnm m0 hm0
        have h1 := (hent j).2 (by
          intro m
          rw [List.getElem?_set_ne hj]
          exact hnm m)
        rw [h1, List.getElem?_set_ne hj]

theorem transformProps_node (nodeList : NodeList) (ps : List XmlProp) :
    ∀ (xfm : Transform) (j : Nat), (transformProps nodeList xfm ps).1.node = some j →
      xfm.node = some j ∨ j < nodeList.length := by
  induction ps with
  | nil => intro xfm j h; exact Or.inl h
  | cons p rest ih =>
    intro xfm j h
    simp only [transformProps] at h
    split_ifs at h with hp
    · rcases hl : nodeList[toSizeT (atoi (c_str p.value))]? with _ | _ | n
      · rw [hl] at h; exact Or.inl h
      · rw [hl] at h; exact Or.inl h
      · rw [hl] at h
        simp only [] at h
        rcases ih _ j h with h1 | h1
        · simp only [Option.some.injEq] at h1
          right
          rw [← h1]
          by_contra hge
          rw [List.getElem?_eq_none (Nat.le_of_not_lt hge)] at hl
          exact absurd hl (by simp)
        · exact Or.inr h1
    · exact ih xfm j h

theorem groupChildren_child (nodeList : NodeList) (toks : List (List Char)) :
    ∀ (group : Group) (j : Nat), some j ∈ (groupChildren nodeList group toks).1.child →
      some j ∈ group.child ∨ j < nodeList.length := by
  induction toks with
  | nil => intro group j h; exact Or.inl h
  | cons s rest ih =>
    intro group j h
    simp only [groupChildren] at h
    rcases hl : nodeList[toSizeT (atoi s)]? with _ | e
    · rw [hl] at h; exact Or.inl h
    · rw [hl] at h
      simp only [] at h
      rcases ih _ j h with h1 | h1
      · simp only [List.mem_append, List.mem_singleton] at h1
        rcases h1 with h1 | h1
        · exact Or.inl h1
        · right
          cases e with
          | none => simp [ptrOf] at h1
          | some n =>
            simp only [ptrOf, Option.some.injEq] at h1
            rw [h1]
            by_contra hge
            rw [List.getElem?_eq_none (Nat.le_of_not_lt hge)] at hl
            exact absurd hl (by simp)
      · exact Or.inr h1

theorem MeshStep.of_same {mesh : PTMTriangleMesh} {nodeList : NodeList}
    {r : PTMTriangleMesh × NodeList} (h1 : r.2 = nodeList)
    (h2 : r.1.materialList = mesh.materialList) : MeshStep mesh nodeList r := by
  refine ⟨?_, ?_, ?_⟩
  · intro i e h; rw [h1] at h; exact Or.inl h
  · intro j h; rw [h2] at h; exact Or.inl h
  · rw [h1]

theorem MeshStep.trans {mesh : PTMTriangleMesh} {nodeList : NodeList}
    (r1 : PTMTriangleMesh × NodeList) {r2 : PTMTriangleMesh × NodeList} (h1 : MeshStep mesh nodeList r1)
    (h2 : MeshStep r1.1 r1.2 r2) : MeshStep mesh nodeList r2 := by
  obtain ⟨a1, b1, c1⟩ := h1
  obtain ⟨a2, b2, c2⟩ := h2
  refine ⟨?_, ?_, ?_⟩
  · intro i e h
    rcases a2 i e h with h | h
    · exact a1 i e h
    · exact Or.inr h
  · intro j h
    rcases b2 j h with h | h
    · exact b1 j h
    · rw [c1] at h; exact Or.inr h
  · rw [c2, c1]

theorem materialList_step (toks : List (List Char)) :
    ∀ (mesh : PTMTriangleMesh) (nodeList : NodeList),
      MeshStep mesh nodeList (materialList mesh nodeList toks).1 := by
  induction toks with
  | nil => intro mesh nodeList; exact MeshStep.of_same rfl rfl
  | cons s rest ih =>
    intro mesh nodeList
    simp only [materialList]
    rcases hl : nodeList[toSizeT (atoi s)]? with _ | _ | n
    · exact MeshStep.of_same rfl rfl
    · exact MeshStep.of_same rfl rfl
    · cases n with
      | material mat =>
        simp only []
        refine MeshStep.trans ({ mesh with materialList :=
          mesh.materialList ++ [toSizeT (atoi s)] },
          nodeList.set (toSizeT (atoi s)) (some (.material mat.refInc))) ?_ (ih _ _)
        refine ⟨?_, ?_, ?_⟩
        · intro i e h
          simp only [List.getElem?_set] at h
          split_ifs at h with h1 h2
          · simp only [Option.some.injEq] at h
            exact Or.inr ⟨_, h.symm⟩
          · exact Or.inl h
        · intro j h
          simp only [List.mem_append, List.mem_singleton] at h
          rcases h with h | h
          · exact Or.inl h
          · right
            rw [h, List.getElem?_map, hl]
            rfl
        · exact map_set_of_same kindOf hl rfl
      | transform t => exact MeshStep.of_same rfl rfl
      | mesh m => exact MeshStep.of_same rfl rfl
      | group g => exact MeshStep.of_same rfl rfl

theorem meshChild_step (mesh : PTMTriangleMesh) (nodeList : NodeList) (child : XmlNode) :
    MeshStep mesh nodeList (meshChild mesh nodeList child).1 := by
  unfold meshChild
  split_ifs
  · exact MeshStep.of_same rfl rfl
  · cases dataArray child <;> exact MeshStep.of_same rfl rfl
  · cases dataArray child <;> exact MeshStep.of_same rfl rfl
  · cases dataArray child <;> exact MeshStep.of_same rfl rfl
  · cases dataArray child <;> exact MeshStep.of_same rfl rfl
  · exact materialList_step _ _ _
  · exact MeshStep.of_same rfl rfl

theorem meshChildren_step (children : List XmlNode) :
    ∀ (mesh : PTMTriangleMesh) (nodeList : NodeList),
      MeshStep mesh nodeList (meshChildren mesh nodeList children).1 := by
  induction children with
  | nil => intro mesh nodeList; exact MeshStep.of_same rfl rfl
  | cons c rest ih =>
    intro mesh nodeList
    simp only [meshChildren]
    have hc := meshChild_step mesh nodeList c
    rcases h : meshChild mesh nodeList c with ⟨r, _ | f⟩
    · rw [h] at hc
      exact MeshStep.trans r hc (ih r.1 r.2)
    · rw [h] at hc
      exact hc

theorem RefsBack.append {nodeList : NodeList} {e : Option Node} (h : RefsBack nodeList)
    (he : EntryRefsBack nodeList.length e) : RefsBack (nodeList ++ [e]) := by
  intro i x hx
  rw [List.getElem?_append] at hx
  split_ifs at hx with hi
  · exact h i x hx
  · have hi2 : i = nodeList.length := by
      rcases Nat.lt_or_ge (i - nodeList.length) 1 with h1 | h1
      · omega
      · rw [List.getElem?_eq_none (by simpa using h1)] at hx
        simp at hx
    subst hi2
    simp at hx
    rw [← hx]
    exact he

theorem parseDeclaration_refsBack (st : Loop) (d : XmlNode) (h : RefsBack st.nodeList) :
    RefsBack (parseDeclaration st d).1.nodeList := by
  unfold parseDeclaration
  split_ifs with h1 h2 h3 h4 h5 h6
  · exact h
  · exact h.append trivial
  · exact h.append trivial
  · have ht : ∀ xs : List CFloat, EntryRefsBack st.nodeList.length (some (.transform
        { (transformProps (st.nodeList ++ [some (.transform {})]) {} d.prop).1 with
          xfm := xs })) := by
      intro xs j hj
      rcases transformProps_node _ _ _ j hj with h | h
      · simp at h
      · simp at h; omega
    have ht0 : EntryRefsBack st.nodeList.length (some (.transform
        (transformProps (st.nodeList ++ [some (.transform {})]) {} d.prop).1)) := ht _
    simp only [declTransform]
    split
    · exact h.append ht0
    · split_ifs
      · exact h.append (ht _)
      · exact h.append (ht _)
  · obtain ⟨ha, hb, hc⟩ := meshChildren_step d.child {} (st.nodeList ++ [some (.mesh {})])
    have hrb : RefsBack ((meshChildren {} (st.nodeList ++ [some (.mesh {})]) d.child).1.2.set
        st.nodeList.length (some (.mesh
          (meshChildren {} (st.nodeList ++ [some (.mesh {})]) d.child).1.1))) := by
      intro i e hi
      rw [List.getElem?_set] at hi
      split_ifs at hi with hi1 hi2
      · subst hi1
        simp only [Option.some.injEq] at hi
        rw [← hi]
        intro j hj
        rcases hb j hj with hj | hj
        · simp at hj
        · simp only [List.map_append, List.map_cons, List.map_nil] at hj
          rw [List.getElem?_append] at hj
          split_ifs at hj with hlt
          · simpa using hlt
          · have hj2 : j = st.nodeList.length := by
              rcases Nat.lt_or_ge (j - (List.map kindOf st.nodeList).length) 1 with h1 | h1
              · simp at hlt h1; omega
              · rw [List.getElem?_eq_none (by simpa using h1)] at hj
                simp at hj
            subst hj2
            simp [kindOf] at hj
      · rcases ha i e hi with hi | ⟨m, rfl⟩
        · have he : EntryRefsBack st.nodeList.length (some (.mesh {})) := by
            intro j hj
            simp at hj
          exact h.append he i e hi
        · trivial
    simp only [declMesh]
    split
    · exact hrb
    · exact hrb
  · have hg : ∀ toks, EntryRefsBack st.nodeList.length (some (.group
        (groupChildren (st.nodeList ++ [some (.group {})]) {} toks).1)) := by
      intro toks j hj
      rcases groupChildren_child _ _ _ j hj with h | h
      · simp at h
      · simp at h; omega
    simp only [declGroup]
    split_ifs
    · exact h.append (by intro j hj; simp at hj)
    · split
      · exact h.append (hg _)
      · exact h.append (hg _)
  · exact h.append trivial

theorem parseDeclarations_refsBack (ds : List XmlNode) :
    ∀ (st : Loop), RefsBack st.nodeList → RefsBack (parseDeclarations st ds).1.nodeList := by
  induction ds with
  | nil => intro st h; exact h
  | cons d rest ih =>
    intro st h
    simp only [parseDeclarations]
    have hd := parseDeclaration_refsBack st d h
    rcases hp : parseDeclaration st d with ⟨st1, _ | f⟩
    · rw [hp] at hd
      exact ih st1 hd
    · rw [hp] at hd
      exact hd

theorem next_of_isDelim (st : FloatScan) (c : Char) (h : isDelim c = true) :
    st.next c = none := by
  have hc : c = ' ' ∨ c = '\t' ∨ c = '\n' ∨ c = '\r' := by simpa [isDelim, or_assoc] using h
  rcases hc with rfl | rfl | rfl | rfl <;> cases st <;> decide

theorem start_next_of_isspace (c : Char) (h : isspace c = true) :
    FloatScan.start.next c = none := by
  have hc : c = ' ' ∨ c = '\t' ∨ c = '\n' ∨ c = Char.ofNat 11 ∨ c = Char.ofNat 12 ∨
      c = '\r' := by simpa [isspace, or_assoc] using h
  rcases hc with rfl | rfl | rfl | rfl | rfl | rfl <;> decide

theorem isspace_of_isDelim (c : Char) (h : isDelim c = true) : isspace c = true := by
  have hc : c = ' ' ∨ c = '\t' ∨ c = '\n' ∨ c = '\r' := by simpa [isDelim, or_assoc] using h
  rcases hc with rfl | rfl | rfl | rfl <;> decide

/-- A text is at a token boundary: it is empty or starts with a delimiter. -/
theorem floatItem_append (t : List Char) :
    ∀ (st : FloatScan) (rest : List Char), (floatItem st t).2.2 = [] →
      startsToken rest = false →
      floatItem st (t ++ rest) = (t, (floatItem st t).2.1, rest) := by
  induction t with
  | nil =>
    intro st rest _ hrest
    cases rest with
    | nil => rfl
    | cons c cs =>
      simp only [startsToken, Bool.not_eq_false'] at hrest
      simp [floatItem, next_of_isDelim st c hrest]
  | cons a t ih =>
    intro st rest h hrest
    rcases hn : st.next a with _ | st1
    · simp [floatItem, hn] at h
    · simp only [floatItem, hn] at h
      simp only [List.cons_append, floatItem, hn, List.append_eq]
      rw [ih st1 rest h hrest]

theorem strtokAll_cons (cs : List Char) :
    ∀ c : Char, isDelim c = false →
      strtokAll (c :: cs) =
        (c :: cs.takeWhile (fun x => !isDelim x)) ::
          strtokAll (cs.dropWhile (fun x => !isDelim x)) := by
  induction cs with
  | nil => intro c hc; simp [strtokAll, hc, startsToken]
  | cons d cs ih =>
    intro c hc
    by_cases hd : isDelim d = true
    · simp [strtokAll, hc, hd, startsToken]
    · simp only [Bool.not_eq_true] at hd
      have hst : startsToken (d :: cs) = true := by simp [startsToken, hd]
      rw [strtokAll, if_neg (by simp [hc]), if_pos hst, ih d hd]
      simp [hd]

theorem startsToken_dropWhile (cs : List Char) :
    startsToken (cs.dropWhile (fun x => !isDelim x)) = false := by
  induction cs with
  | nil => rfl
  | cons d cs ih =>
    by_cases hd : isDelim d = true
    · simp [List.dropWhile, hd, startsToken]
    · simp only [Bool.not_eq_true] at hd
      simp [List.dropWhile, hd, ih]

theorem takeWhile_append_dropWhile_cons (c : Char) (cs : List Char) :
    c :: cs = (c :: cs.takeWhile (fun x => !isDelim x)) ++
      cs.dropWhile (fun x => !isDelim x) := by
  simp

theorem strtokAll_delims (body : List Char) (h : body.dropWhile isDelim = []) :
    strtokAll body = [] ∧ body.dropWhile isspace = [] := by
  induction body with
  | nil => exact ⟨rfl, rfl⟩
  | cons c cs ih =>
    by_cases hc : isDelim c = true
    · simp only [List.dropWhile, hc] at h
      have := ih h
      simp [strtokAll, hc, List.dropWhile, isspace_of_isDelim c hc, this]
    · simp only [Bool.not_eq_true] at hc
      simp [List.dropWhile, hc] at h

theorem strtokAll_dropWhile (body : List Char) :
    strtokAll (body.dropWhile isDelim) = strtokAll body ∧
      (body.dropWhile isDelim).dropWhile isspace = body.dropWhile isspace := by
  induction body with
  | nil => exact ⟨rfl, rfl⟩
  | cons c cs ih =>
    by_cases hc : isDelim c = true
    · simp [strtokAll, hc, List.dropWhile, isspace_of_isDelim c hc, ih]
    · simp only [Bool.not_eq_true] at hc
      simp [List.dropWhile, hc]

theorem isNumber_head {c : Char} {t : List Char} (h : isNumber (c :: t) = true) :
    isspace c = false := by
  by_contra hs
  simp only [Bool.not_eq_false] at hs
  simp [isNumber, floatItem, start_next_of_isspace c hs] at h

/-- The first conversion on a text whose first token is a number: the token is
converted and the text after it is left. -/
theorem scanf_f_token (body : List Char) (c : Char) (cs : List Char)
    (hb : body.dropWhile isDelim = c :: cs)
    (hnum : isNumber (c :: cs.takeWhile (fun x => !isDelim x)) = true) :
    scanf_f body = some (⟨String.mk (c :: cs.takeWhile (fun x => !isDelim x))⟩,
      cs.dropWhile (fun x => !isDelim x)) := by
  have h1 : body.dropWhile isspace = c :: cs := by
    rw [← (strtokAll_dropWhile body).2, hb]
    simp [List.dropWhile, isNumber_head hnum]
  have h2 := hnum
  simp only [isNumber, Bool.and_eq_true, List.isEmpty_iff] at h2
  have h3 := floatItem_append _ FloatScan.start _ h2.2 (startsToken_dropWhile cs)
  rw [← takeWhile_append_dropWhile_cons] at h3
  simp [scanf_f, h1, h3, h2.1]

theorem scanFloats_tokens (n : Nat) :
    ∀ body : List Char, (∀ t ∈ strtokAll body, isNumber t = true) →
      scanFloats n body = ((strtokAll body).take n).map (fun t => ⟨String.mk t⟩) := by
  induction n with
  | zero => intro body _; simp [scanFloats]
  | succ n ih =>
    intro body hnum
    rcases hb : body.dropWhile isDelim with _ | ⟨c, cs⟩
    · obtain ⟨h1, h2⟩ := strtokAll_delims body hb
      simp [scanFloats, scanf_f, h1, h2, floatItem, FloatScan.complete]
    · have hc : isDelim c = false := by
        have := List.head_dropWhile_not isDelim body (by rw [hb]; simp)
        simpa [hb] using this
      have ht : strtokAll body = (c :: cs.takeWhile (fun x => !isDelim x)) ::
          strtokAll (cs.dropWhile (fun x => !isDelim x)) := by
        rw [← (strtokAll_dropWhile body).1, hb, strtokAll_cons cs c hc]
      have hn1 := hnum _ (by rw [ht]; exact List.mem_cons_self _ _)
      have hrest : ∀ t ∈ strtokAll (cs.dropWhile (fun x => !isDelim x)),
          isNumber t = true := by
        intro t htm
        exact hnum t (by rw [ht]; exact List.mem_cons_of_mem _ htm)
      simp only [scanFloats, scanf_f_token body c cs hb hn1]
      rw [ih _ hrest, ht]
      simp

theorem sscanfCount_tokens (body : List Char)
    (hnum : ∀ t ∈ strtokAll body, isNumber t = true) :
    (sscanfCount 12 body ≠ 12 ↔ (strtokAll body).length < 12) := by
  unfold sscanfCount
  rcases hb : body.dropWhile isDelim with _ | ⟨c, cs⟩
  · obtain ⟨h1, h2⟩ := strtokAll_delims body hb
    simp [h1, h2]
  · have hc : isDelim c = false := by
      have := List.head_dropWhile_not isDelim body (by rw [hb]; simp)
      simpa [hb] using this
    have ht : strtokAll body = (c :: cs.takeWhile (fun x => !isDelim x)) ::
        strtokAll (cs.dropWhile (fun x => !isDelim x)) := by
      rw [← (strtokAll_dropWhile body).1, hb, strtokAll_cons cs c hc]
    have hn1 := hnum _ (by rw [ht]; exact List.mem_cons_self _ _)
    have h1 : body.dropWhile isspace ≠ [] := by
      rw [← (strtokAll_dropWhile body).2, hb]
      simp [List.dropWhile, isNumber_head hn1]
    rw [if_neg h1, scanFloats_tokens 12 body hnum]
    simp only [List.length_map, List.length_take]
    omega

theorem groupChildren_ok (nodeList : NodeList) (toks : List (List Char)) :
    ∀ (group : Group), (∀ s ∈ toks, toSizeT (atoi s) < nodeList.length) →
      groupChildren nodeList group toks =
        ({ child := group.child ++ toks.map (fun s => resolve nodeList (toSizeT (atoi s))) },
          none) := by
  induction toks with
  | nil => intro group _; simp [groupChildren]
  | cons s rest ih =>
    intro group h
    have hs := h s (List.mem_cons_self _ _)
    simp only [groupChildren]
    rw [List.getElem?_eq_getElem hs]
    simp only []
    rw [ih _ (fun x hx => h x (List.mem_cons_of_mem _ hx))]
    simp [resolve, List.getElem?_eq_getElem hs]

theorem meshChildren_append (pre post : List XmlNode) :
    ∀ (mesh : PTMTriangleMesh) (nodeList : NodeList),
      meshChildren mesh nodeList (pre ++ post) =
        match meshChildren mesh nodeList pre with
        | (r, some f) => (r, some f)
        | (r, none) => meshChildren r.1 r.2 post := by
  induction pre with
  | nil => intro mesh nodeList; simp [meshChildren]
  | cons c cs ih =>
    intro mesh nodeList
    simp only [List.cons_append, meshChildren]
    rcases h : meshChild mesh nodeList c with ⟨r, _ | f⟩
    · simp [ih]
    · simp

theorem materialList_append (pre post : List (List Char)) :
    ∀ (mesh : PTMTriangleMesh) (nodeList : NodeList),
      materialList mesh nodeList (pre ++ post) =
        match materialList mesh nodeList pre with
        | (r, some f) => (r, some f)
        | (r, none) => materialList r.1 r.2 post := by
  induction pre with
  | nil => intro mesh nodeList; simp [materialList]
  | cons s rest ih =>
    intro mesh nodeList
    simp only [List.cons_append, materialList]
    rcases h : nodeList[toSizeT (atoi s)]? with _ | _ | n
    · simp
    · simp
    · cases n <;> simp [ih]

/-- A fault of a child of a Mesh that the parser reaches is the fault of
`parseBGFscene`, and the children before it are the ones processed. -/
theorem mesh_child_fault (world : World) {nodeList : NodeList} {root d c : XmlNode}
    {pre post cpre cpost : List XmlNode} {st : Loop} {r : PTMTriangleMesh × NodeList}
    {f : Fault}
    (hroot : root.name = "BGFscene") (hchild : root.child = pre ++ d :: post)
    (hpre : parseDeclarations ⟨nodeList, none⟩ pre = (st, none))
    (hd : d.name = "Mesh") (hdc : d.child = cpre ++ c :: cpost)
    (hcpre : meshChildren {} (st.nodeList ++ [some (.mesh {})]) cpre = (r, none))
    (hc : (meshChild r.1 r.2 c).2 = some f) :
    (parseBGFscene world root nodeList).fault = some f ∧
    meshChildren {} (st.nodeList ++ [some (.mesh {})]) d.child =
      ((meshChild r.1 r.2 c).1, some f) := by
  have hmesh : meshChildren {} (st.nodeList ++ [some (.mesh {})]) d.child =
      ((meshChild r.1 r.2 c).1, some f) := by
    rw [hdc, meshChildren_append, hcpre]
    simp only [meshChildren]
    rcases h : meshChild r.1 r.2 c with ⟨r1, _ | g⟩
    · rw [h] at hc; simp at hc
    · rw [h] at hc; simp at hc; simp [hc]
  refine ⟨?_, hmesh⟩
  have hdecl : (parseDeclaration st d).2 = some f := by
    simp [parseDeclaration, hd, declMesh, hmesh]
  have hloop := parseDeclarations_fault_at post hpre hdecl
  rw [← hchild] at hloop
  rw [parseBGFscene_fault_of hroot (by rw [hchild]; simp) hloop]

theorem ofsNum_eq (ps : List XmlProp) :
    ∀ (ofs num : Nat), ofsNum ofs num ps =
      (((lastAttr "ofs" ps).map (fun v => toSizeT (atol (c_str v)))).getD ofs,
        ((lastAttr "num" ps).map (fun v => toSizeT (atol (c_str v)))).getD num) := by
  induction ps with
  | nil => intro ofs num; rfl
  | cons p ps ih =>
    intro ofs num
    simp only [ofsNum, lastAttr]
    by_cases h1 : p.name = "ofs"
    · have h2 : p.name ≠ "num" := by rw [h1]; decide
      rw [if_pos h1, ih]
      cases lastAttr "ofs" ps <;> cases lastAttr "num" ps <;> simp [h1, h2]
    · by_cases h2 : p.name = "num"
      · rw [if_neg h1, if_pos h2, ih]
        cases lastAttr "ofs" ps <;> cases lastAttr "num" ps <;> simp [h1, h2]
      · rw [if_neg h1, if_neg h2, ih]
        cases lastAttr "ofs" ps <;> cases lastAttr "num" ps <;> simp [h1, h2]

theorem lastAttr_eq_none {name : String} {ps : List XmlProp}
    (h : ∀ p ∈ ps, p.name ≠ name) : lastAttr name ps = none := by
  induction ps with
  | nil => rfl
  | cons p ps ih =>
    simp only [lastAttr]
    rw [ih (fun q hq => h q (List.mem_cons_of_mem _ hq))]
    simp [h p (List.mem_cons_self _ _)]

theorem toSizeT_atol {s : List Char} {o : Nat} (h : atol s = (o : Int)) :
    toSizeT (atol s) = o ∧ o ≠ SIZE_MAX := by
  have hle : atol s ≤ LONG_MAX := by
    unfold atol strtol
    exact max_le (by decide) (min_le_left _ _)
  rw [h] at hle ⊢
  have ho : (o : Int) < 2 ^ 63 := by
    unfold LONG_MAX at hle
    omega
  constructor
  · unfold toSizeT
    rw [Int.emod_eq_of_lt (by omega) (by omega)]
    simp
  · unfold SIZE_MAX
    omega

theorem dataArray_ok {child : XmlNode} {so sn : String} {o n : Nat}
    (hofs : lastAttr "ofs" child.prop = some so) (hnum : lastAttr "num" child.prop = some sn)
    (ho : atol (c_str so) = (o : Int)) (hn : atol (c_str sn) = (n : Int)) :
    dataArray child = .ok ⟨o, n⟩ := by
  obtain ⟨ho1, ho2⟩ := toSizeT_atol ho
  obtain ⟨hn1, hn2⟩ := toSizeT_atol hn
  simp [dataArray, ofsNum_eq, hofs, hnum, ho1, hn1, ho2, hn2]

theorem dataArray_missing {child : XmlNode}
    (h : (∀ p ∈ child.prop, p.name ≠ "ofs") ∨ (∀ p ∈ child.prop, p.name ≠ "num")) :
    ∃ e, dataArray child = .error (.assertion e) := by
  unfold dataArray
  rw [ofsNum_eq]
  rcases h with h | h
  · rw [lastAttr_eq_none h]
    exact ⟨"ofs != size_t(-1)", by simp⟩
  · rw [lastAttr_eq_none h]
    by_cases h1 : ((lastAttr "ofs" child.prop).map
        (fun v => toSizeT (atol (c_str v)))).getD SIZE_MAX = SIZE_MAX
    · exact ⟨"ofs != size_t(-1)", by simp [h1]⟩
    · exact ⟨"num != size_t(-1)", by simp [h1]⟩

theorem kindOf_eraseCount (e : Option Node) : kindOf (eraseCount e) = kindOf e := by
  rcases e with _ | n
  · rfl
  · cases n <;> rfl

theorem materialList_eraseCount (toks : List (List Char)) :
    ∀ (mesh : PTMTriangleMesh) (nodeList : NodeList),
      (materialList mesh nodeList toks).1.2.map eraseCount = nodeList.map eraseCount := by
  induction toks with
  | nil => intro mesh nodeList; rfl
  | cons s rest ih =>
    intro mesh nodeList
    simp only [materialList]
    rcases h : nodeList[toSizeT (atoi s)]? with _ | _ | n
    · rfl
    · rfl
    · cases n with
      | material mat =>
        simp only []
        rw [ih]
        exact map_set_of_same eraseCount h rfl
      | transform t => rfl
      | mesh m => rfl
      | group g => rfl

theorem meshChild_eraseCount (mesh : PTMTriangleMesh) (nodeList : NodeList)
    (child : XmlNode) :
    (meshChild mesh nodeList child).1.2.map eraseCount = nodeList.map eraseCount := by
  unfold meshChild
  split_ifs
  · rfl
  · cases dataArray child <;> rfl
  · cases dataArray child <;> rfl
  · cases dataArray child <;> rfl
  · cases dataArray child <;> rfl
  · exact materialList_eraseCount _ _ _
  · rfl

theorem meshChildren_eraseCount (children : List XmlNode) :
    ∀ (mesh : PTMTriangleMesh) (nodeList : NodeList),
      (meshChildren mesh nodeList children).1.2.map eraseCount =
        nodeList.map eraseCount := by
  induction children with
  | nil => intro mesh nodeList; rfl
  | cons c rest ih =>
    intro mesh nodeList
    simp only [meshChildren]
    have hc := meshChild_eraseCount mesh nodeList c
    rcases h : meshChild mesh nodeList c with ⟨r, _ | f⟩
    · rw [h] at hc
      simp only []
      rw [ih, hc]
    · rw [h] at hc
      exact hc

theorem Agree.of_kinds {tA tB tA1 tB1 : NodeList} (h : Agree tA tB)
    (hA : tA1.map kindOf = tA.map kindOf) (hB : tB1.map kindOf = tB.map kindOf) :
    Agree tA1 tB1 := by
  intro j hj
  have hlen : tA1.length = tA.length := by simpa using congrArg List.length hA
  rw [hA, hB]
  exact h j (hlen ▸ hj)

/-- Under `Agree`, an entry found in `tA` has a counterpart of the same kind
in `tB`. -/
theorem Agree.lookup {tA tB : NodeList} (h : Agree tA tB) {i : Nat} {e : Option Node}
    (he : tA[i]? = some e) : ∃ e1, tB[i]? = some e1 ∧ kindOf e1 = kindOf e := by
  have hi : i < tA.length := by
    by_contra hge
    rw [List.getElem?_eq_none (Nat.le_of_not_lt hge)] at he
    exact absurd he (by simp)
  have := h i hi
  simp only [List.getElem?_map, he, Option.map_some'] at this
  rcases h1 : tB[i]? with _ | e1
  · rw [h1] at this; simp at this
  · rw [h1] at this
    simp only [Option.map_some', Option.some.injEq] at this
    exact ⟨e1, rfl, this⟩

theorem kindOf_eq_none {e : Option Node} : kindOf e = none ↔ e = none := by
  rcases e with _ | n
  · simp [kindOf]
  · cases n <;> simp [kindOf]

theorem kindOf_eq_material {e : Option Node} (h : kindOf e = some Kind.material) :
    ∃ m, e = some (.material m) := by
  rcases e with _ | n
  · simp [kindOf] at h
  · cases n <;> simp [kindOf] at h
    exact ⟨_, rfl⟩

theorem transformProps_agree {tA tB : NodeList} (h : Agree tA tB) (ps : List XmlProp) :
    ∀ (xfm : Transform), (transformProps tA xfm ps).2 = none →
      transformProps tB xfm ps = transformProps tA xfm ps := by
  induction ps with
  | nil => intro xfm _; rfl
  | cons p rest ih =>
    intro xfm hok
    simp only [transformProps] at hok ⊢
    split_ifs at hok ⊢ with hp
    · rcases hl : tA[toSizeT (atoi (c_str p.value))]? with _ | _ | n
      · rw [hl] at hok; simp at hok
      · rw [hl] at hok; simp at hok
      · rw [hl] at hok
        simp only [] at hok
        obtain ⟨e1, he1, hk⟩ := h.lookup hl
        rcases e1 with _ | n1
        · have := kindOf_eq_none.mpr (rfl : (none : Option Node) = none)
          rw [this] at hk
          exact absurd (kindOf_eq_none.mp hk.symm) (by simp)
        · rw [he1]
          simp only []
          exact ih _ hok
    · exact ih xfm hok

theorem groupChildren_agree {tA tB : NodeList} (h : Agree tA tB) (toks : List (List Char)) :
    ∀ (group : Group), (groupChildren tA group toks).2 = none →
      groupChildren tB group toks = groupChildren tA group toks := by
  induction toks with
  | nil => intro group _; rfl
  | cons s rest ih =>
    intro group hok
    simp only [groupChildren] at hok ⊢
    rcases hl : tA[toSizeT (atoi s)]? with _ | e
    · rw [hl] at hok; simp at hok
    · rw [hl] at hok
      simp only [] at hok
      obtain ⟨e1, he1, hk⟩ := h.lookup hl
      have hp : ptrOf (toSizeT (atoi s)) e1 = ptrOf (toSizeT (atoi s)) e := by
        rcases e with _ | n <;> rcases e1 with _ | n1
        · rfl
        · exact absurd (kindOf_eq_none.mp hk) (by simp)
        · exact absurd (kindOf_eq_none.mp hk.symm) (by simp)
        · rfl
      rw [he1]
      simp only [hp]
      exact ih _ hok

theorem materialList_agree (toks : List (List Char)) :
    ∀ (mesh : PTMTriangleMesh) (tA tB : NodeList), Agree tA tB →
      (materialList mesh tA toks).2 = none →
      (materialList mesh tB toks).2 = none ∧
        (materialList mesh tB toks).1.1 = (materialList mesh tA toks).1.1 := by
  induction toks with
  | nil => intro mesh tA tB _ _; exact ⟨rfl, rfl⟩
  | cons s rest ih =>
    intro mesh tA tB h hok
    simp only [materialList] at hok ⊢
    rcases hl : tA[toSizeT (atoi s)]? with _ | _ | n
    · rw [hl] at hok; simp at hok
    · rw [hl] at hok; simp at hok
    · rw [hl] at hok
      cases n with
      | material mat =>
        simp only [] at hok
        obtain ⟨e1, he1, hk⟩ := h.lookup hl
        obtain ⟨m1, rfl⟩ := kindOf_eq_material hk
        rw [he1]
        simp only []
        exact ih _ _ _ (h.of_kinds (map_set_of_same kindOf hl rfl)
          (map_set_of_same kindOf he1 rfl)) hok
      | transform t => simp at hok
      | mesh m => simp at hok
      | group g => simp at hok

theorem meshChild_agree (mesh : PTMTriangleMesh) {tA tB : NodeList} (h : Agree tA tB)
    (c : XmlNode) (hok : (meshChild mesh tA c).2 = none) :
    (meshChild mesh tB c).2 = none ∧ (meshChild mesh tB c).1.1 = (meshChild mesh tA c).1.1 := by
  unfold meshChild at hok ⊢
  split_ifs at hok ⊢
  · exact ⟨rfl, rfl⟩
  · cases hd : dataArray c <;> rw [hd] at hok <;> simp at hok ⊢
  · cases hd : dataArray c <;> rw [hd] at hok <;> simp at hok ⊢
  · cases hd : dataArray c <;> rw [hd] at hok <;> simp at hok ⊢
  · cases hd : dataArray c <;> rw [hd] at hok <;> simp at hok ⊢
  · exact materialList_agree _ _ _ _ h hok

theorem meshChildren_agree (children : List XmlNode) :
    ∀ (mesh : PTMTriangleMesh) (tA tB : NodeList), Agree tA tB →
      (meshChildren mesh tA children).2 = none →
      (meshChildren mesh tB children).2 = none ∧
        (meshChildren mesh tB children).1.1 = (meshChildren mesh tA children).1.1 := by
  induction children with
  | nil => intro mesh tA tB _ _; exact ⟨rfl, rfl⟩
  | cons c rest ih =>
    intro mesh tA tB h hok
    simp only [meshChildren] at hok ⊢
    have hkA := meshChild_kinds mesh tA c
    have hkB := meshChild_kinds mesh tB c
    rcases hA : meshChild mesh tA c with ⟨rA, _ | f⟩
    · rw [hA] at hok hkA
      simp only [] at hok
      have hc := meshChild_agree mesh h c (by rw [hA])
      rcases hB : meshChild mesh tB c with ⟨rB, _ | g⟩
      · rw [hB] at hc hkB
        rw [hA] at hc
        simp only [] at hc ⊢
        have h1 : rB.1 = rA.1 := hc.2
        rw [h1]
        exact ih rA.1 rA.2 rB.2 (h.of_kinds hkA hkB) hok
      · rw [hB] at hc
        simp at hc
    · rw [hA] at hok
      simp at hok

theorem map_set_last {α β : Type} (f : α → β) (l l1 : List α) (x y : α)
    (h : l1.map f = (l ++ [x]).map f) :
    (l1.set l.length y).map f = l.map f ++ [f y] := by
  rw [List.map_set, h, List.map_append, List.set_append_right _ _ (by simp)]
  simp

/-- One declaration processed from two tables that agree on what the
declaration can look up: when the first run raises no fault, neither does the
second, and both append the same entries, reference counts apart. -/
theorem parseDeclaration_agree (a B : NodeList) (lA lB : Ptr) (d : XmlNode)
    (hag : d.name ≠ "text" → ∀ x y, kindOf x = declKind d.name →
      kindOf y = declKind d.name → Agree (a ++ [x]) (B ++ [y]))
    (hok : (parseDeclaration ⟨a, lA⟩ d).2 = none) :
    (parseDeclaration ⟨B, lB⟩ d).2 = none ∧
    ∃ N, (parseDeclaration ⟨a, lA⟩ d).1.nodeList.map eraseCount = a.map eraseCount ++ N ∧
      (parseDeclaration ⟨B, lB⟩ d).1.nodeList.map eraseCount = B.map eraseCount ++ N := by
  unfold parseDeclaration at hok ⊢
  split_ifs at hok ⊢ with h1 h2 h3 h4 h5 h6
  · exact ⟨rfl, [], by simp, by simp⟩
  · exact ⟨rfl, [none], by simp [eraseCount], by simp [eraseCount]⟩
  · simp only [declMaterial] at hok ⊢
    exact ⟨hok, [eraseCount (some (.material
      (materialChildren (materialProps {} d.prop) d.child).1))], by simp, by simp⟩
  · have hag1 : Agree (a ++ [some (.transform {})]) (B ++ [some (.transform {})]) :=
      hag h1 _ _ (by simp [kindOf, declKind, h4]) (by simp [kindOf, declKind, h4])
    rcases hr : transformProps (a ++ [some (.transform {})]) {} d.prop with ⟨x, _ | f⟩
    · have hB := transformProps_agree hag1 d.prop {} (by rw [hr])
      rw [hr] at hB
      simp only [declTransform, hr, hB] at hok ⊢
      split_ifs at hok ⊢ with hc
      exact ⟨rfl, [eraseCount (some (.transform
        { x with xfm := scanFloats 12 (c_str d.content) }))], by simp, by simp⟩
    · simp [declTransform, hr] at hok
  · have hag1 : Agree (a ++ [some (.mesh {})]) (B ++ [some (.mesh {})]) :=
      hag h1 _ _ (by simp [kindOf, declKind, h5]) (by simp [kindOf, declKind, h5])
    have heA := meshChildren_eraseCount d.child {} (a ++ [some (.mesh {})])
    have heB := meshChildren_eraseCount d.child {} (B ++ [some (.mesh {})])
    rcases hr : meshChildren {} (a ++ [some (.mesh {})]) d.child with ⟨rA, _ | f⟩
    · obtain ⟨hB1, hB2⟩ := meshChildren_agree d.child {} _ _ hag1 (by rw [hr])
      rw [hr] at hB2 heA
      simp only [] at hB2 heA
      rcases hrB : meshChildren {} (B ++ [some (.mesh {})]) d.child with ⟨rB, _ | g⟩
      · rw [hrB] at hB2 heB
        simp only [] at hB2 heB
        simp only [declMesh, hr, hrB]
        refine ⟨trivial, [eraseCount (some (.mesh rA.1))], ?_, ?_⟩
        · exact map_set_last eraseCount a rA.2 _ _ heA
        · rw [hB2]
          exact map_set_last eraseCount B rB.2 _ _ heB
      · rw [hrB] at hB1
        simp at hB1
    · simp [declMesh, hr] at hok
  · simp only [declGroup] at hok ⊢
    split_ifs at hok ⊢ with hc
    · exact ⟨rfl, [eraseCount (some (.group {}))], by simp, by simp⟩
    · have hag1 : Agree (a ++ [some (.group {})]) (B ++ [some (.group {})]) :=
        hag h1 _ _ (by simp [kindOf, declKind, h6]) (by simp [kindOf, declKind, h6])
      rcases hr : groupChildren (a ++ [some (.group {})]) {}
          (strtokAll (c_str d.content)) with ⟨x, _ | f⟩
      · have hB := groupChildren_agree hag1 (strtokAll (c_str d.content)) {} (by rw [hr])
        rw [hr] at hB
        simp only [hr, hB]
        exact ⟨trivial, [eraseCount (some (.group x))], by simp, by simp⟩
      · simp [hr] at hok
  · exact ⟨rfl, [none], by simp [eraseCount], by simp [eraseCount]⟩

theorem map_kindOf_eraseCount (l : NodeList) :
    (l.map eraseCount).map kindOf = l.map kindOf := by
  rw [List.map_map]
  exact List.map_congr_left (fun e _ => kindOf_eraseCount e)

/-- The loop run from a table `B` that holds, reference counts apart, a table
`P` followed by the table `a` of a run of its own, where `P` has the kinds
that the run from `a` is going to reach: when the run from `a` is accepted,
so is the run from `B`, and it appends the same entries. -/
theorem parseDeclarations_agree (P : NodeList) (ds : List XmlNode) :
    ∀ (a B : NodeList) (lA lB : Ptr) (stA1 : Loop),
      parseDeclarations ⟨a, lA⟩ ds = (stA1, none) →
      B.map eraseCount = P ++ a.map eraseCount →
      P.map kindOf = a.map kindOf ++ (declarations ds).map (fun d => declKind d.name) →
      ∃ stB1, parseDeclarations ⟨B, lB⟩ ds = (stB1, none) ∧
        stB1.nodeList.map eraseCount = P ++ stA1.nodeList.map eraseCount := by
  induction ds with
  | nil =>
    intro a B lA lB stA1 h hB _
    simp only [parseDeclarations, Prod.mk.injEq, and_true] at h
    subst h
    exact ⟨⟨B, lB⟩, rfl, hB⟩
  | cons d rest ih =>
    intro a B lA lB stA1 h hB hP
    simp only [parseDeclarations] at h
    rcases hd : parseDeclaration ⟨a, lA⟩ d with ⟨st2, _ | f⟩
    · rw [hd] at h
      simp only [] at h
      have hBk : B.map kindOf = P.map kindOf ++ a.map kindOf := by
        rw [← map_kindOf_eraseCount B, hB, List.map_append, map_kindOf_eraseCount]
      have hag : d.name ≠ "text" → ∀ x y, kindOf x = declKind d.name →
          kindOf y = declKind d.name → Agree (a ++ [x]) (B ++ [y]) := by
        intro hnt x y hx _ j hj
        have hdecl : declarations (d :: rest) = d :: declarations rest := by
          simp [declarations, List.filter_cons, hnt]
        rw [hdecl] at hP
        simp only [List.length_append, List.length_singleton] at hj
        have hj1 : j < (a.map kindOf ++ [declKind d.name]).length := by simpa using hj
        rw [List.map_append, List.map_append, hBk, hP, List.map_cons,
          show a.map kindOf ++ declKind d.name ::
              (declarations rest).map (fun d => declKind d.name) =
            (a.map kindOf ++ [declKind d.name]) ++
              (declarations rest).map (fun d => declKind d.name) by simp,
          List.append_assoc, List.append_assoc,
          List.getElem?_append_left hj1]
        simp [hx]
      obtain ⟨hokB, N, hNA, hNB⟩ := parseDeclaration_agree a B lA lB d hag (by rw [hd])
      rw [hd] at hNA
      simp only [] at hNA
      rcases hdB : parseDeclaration ⟨B, lB⟩ d with ⟨stB2, g⟩
      rw [hdB] at hokB hNB
      simp only [] at hokB hNB
      subst hokB
      have hk := parseDeclaration_kinds ⟨a, lA⟩ d
      rw [hd] at hk
      simp only [] at hk
      have hP2 : P.map kindOf = st2.nodeList.map kindOf ++
          (declarations rest).map (fun d => declKind d.name) := by
        rw [hP, hk]
        by_cases ht : d.name = "text"
        · simp [declarations, ht]
        · simp [declarations, ht]
      have hB2 : stB2.nodeList.map eraseCount = P ++ st2.nodeList.map eraseCount := by
        rw [hNB, hNA, hB, List.append_assoc]
      obtain ⟨stB1, hrun, hres⟩ := ih st2.nodeList stB2.nodeList st2.lastNode stB2.lastNode
        stA1 h hB2 hP2
      exact ⟨stB1, by simp only [parseDeclarations, hdB]; exact hrun, hres⟩
    · rw [hd] at h
      simp at h

theorem eraseCount_inv {e : Option Node} :
    (∀ t, eraseCount e = some (.transform t) → e = some (.transform t)) ∧
    (∀ g, eraseCount e = some (.group g) → e = some (.group g)) ∧
    (∀ m, eraseCount e = some (.mesh m) → e = some (.mesh m)) := by
  rcases e with _ | n
  · simp [eraseCount]
  · cases n <;> simp [eraseCount]

/-- The same document parsed twice in a row, the second time from the table
that the first parse left. -/
theorem parseBGFscene_twice (w1 w2 : World) (root : XmlNode)
    (h : (parseBGFscene w1 root []).fault = none) :
    (parseBGFscene w2 root (parseBGFscene w1 root []).nodeList).fault = none ∧
    (parseBGFscene w2 root (parseBGFscene w1 root []).nodeList).nodeList.map eraseCount =
      (parseBGFscene w1 root []).nodeList.map eraseCount ++
        (parseBGFscene w1 root []).nodeList.map eraseCount ∧
    RefsBack (parseBGFscene w1 root []).nodeList := by
  obtain ⟨hroot, hne, st, hst, hout⟩ := parseBGFscene_accepted h
  have hk := parseDeclarations_kinds _ _ _ hst
  obtain ⟨stB, hrun, hres⟩ := parseDeclarations_agree (st.nodeList.map eraseCount) root.child
    [] st.nodeList none none st hst (by simp) (by
      rw [map_kindOf_eraseCount, hk])
  have hrb := parseDeclarations_refsBack root.child ⟨[], none⟩ (by intro i e hi; simp at hi)
  rw [hst] at hrb
  rw [hout]
  simp only []
  rw [parseBGFscene_ok_of hroot hne hrun]
  exact ⟨rfl, hres, hrb⟩

theorem importRIVL_of {doc : XMLDoc} {root : XmlNode} (nodeList : NodeList)
    (hdoc : doc.child = [root]) (hroot : root.name = "BGFscene") :
    (importRIVL doc nodeList).nodeList = (parseBGFscene {} root nodeList).nodeList ∧
    (importRIVL doc nodeList).fault = (parseBGFscene {} root nodeList).fault := by
  unfold importRIVL
  rw [hdoc]
  simp only [hroot, ne_eq, not_true_eq_false, if_false]
  rcases hf : (parseBGFscene {} root nodeList).fault with _ | f
  · exact ⟨rfl, rfl⟩
  · exact ⟨rfl, rfl⟩

theorem importRIVL_accepted {doc : XMLDoc} {nodeList : NodeList}
    (h : (importRIVL doc nodeList).fault = none) :
    ∃ root, doc.child = [root] ∧ root.name = "BGFscene" := by
  unfold importRIVL at h
  split at h
  · rename_i root hroot
    by_cases h1 : root.name = "BGFscene"
    · exact ⟨root, hroot, h1⟩
    · simp [h1] at h
  · simp at h

theorem ptrOf_of_eraseCount {i : Nat} {e e1 : Option Node}
    (h : eraseCount e1 = eraseCount e) : ptrOf i e1 = ptrOf i e := by
  have hk : kindOf e1 = kindOf e := by
    rw [← kindOf_eraseCount e1, h, kindOf_eraseCount]
  rcases e with _ | n <;> rcases e1 with _ | n1
  · rfl
  · exact absurd (kindOf_eq_none.mp hk) (by simp)
  · exact absurd (kindOf_eq_none.mp hk.symm) (by simp)
  · rfl

theorem map_append_singleton_exists {α β : Type} (f : α → β) (l : List α) (x : α) :
    ∃ N, (l ++ [x]).map f = l.map f ++ N :=
  ⟨[f x], by simp⟩

/-- One declaration, whether it ends or stops at a fault, leaves the entries
of the table as they were, reference counts apart, and appends at its end. -/
theorem parseDeclaration_eraseCount (st : Loop) (d : XmlNode) :
    ∃ N, (parseDeclaration st d).1.nodeList.map eraseCount =
      st.nodeList.map eraseCount ++ N := by
  unfold parseDeclaration
  split_ifs with h1 h2 h3 h4 h5 h6
  · exact ⟨[], by simp⟩
  · exact map_append_singleton_exists _ _ _
  · exact map_append_singleton_exists _ _ _
  · simp only [declTransform]
    split
    · exact map_append_singleton_exists _ _ _
    · split_ifs
      · exact map_append_singleton_exists _ _ _
      · exact map_append_singleton_exists _ _ _
  · have he := meshChildren_eraseCount d.child {} (st.nodeList ++ [some (.mesh {})])
    have hset := map_set_last eraseCount st.nodeList
      (meshChildren {} (st.nodeList ++ [some (.mesh {})]) d.child).1.2 (some (.mesh {}))
      (some (.mesh (meshChildren {} (st.nodeList ++ [some (.mesh {})]) d.child).1.1)) he
    simp only [declMesh]
    split
    · exact ⟨_, hset⟩
    · exact ⟨_, hset⟩
  · simp only [declGroup]
    split_ifs
    · exact map_append_singleton_exists _ _ _
    · split
      · exact map_append_singleton_exists _ _ _
      · exact map_append_singleton_exists _ _ _
  · exact map_append_singleton_exists _ _ _

theorem parseDeclarations_eraseCount (ds : List XmlNode) :
    ∀ st : Loop, ∃ N, (parseDeclarations st ds).1.nodeList.map eraseCount =
      st.nodeList.map eraseCount ++ N := by
  induction ds with
  | nil => intro st; exact ⟨[], by simp [parseDeclarations]⟩
  | cons d rest ih =>
    intro st
    obtain ⟨N1, h1⟩ := parseDeclaration_eraseCount st d
    simp only [parseDeclarations]
    rcases hd : parseDeclaration st d with ⟨st1, _ | f⟩
    · rw [hd] at h1
      simp only [] at h1 ⊢
      obtain ⟨N2, h2⟩ := ih st1
      exact ⟨N1 ++ N2, by rw [h2, h1, List.append_assoc]⟩
    · rw [hd] at h1
      exact ⟨N1, h1⟩

theorem parseBGFscene_eraseCount (world : World) (root : XmlNode) (nodeList : NodeList) :
    ∃ N, (parseBGFscene world root nodeList).nodeList.map eraseCount =
      nodeList.map eraseCount ++ N := by
  unfold parseBGFscene
  split_ifs
  · exact ⟨[], by simp⟩
  · exact ⟨[], by simp⟩
  · obtain ⟨N, h⟩ := parseDeclarations_eraseCount root.child ⟨nodeList, none⟩
    rcases hp : parseDeclarations ⟨nodeList, none⟩ root.child with ⟨st, _ | f⟩
    · rw [hp] at h
      exact ⟨N, h⟩
    · rw [hp] at h
      exact ⟨N, h⟩

theorem decodeParam_short (mat : Material) (name ty : String) (toks : List (List Char))
    (k : Nat) (hty : componentCount ty = some k) (hlen : toks.length < k)
    (hmap : ty = "int" → contains "map_".toList name.toList = false) :
    decodeParam mat name ty toks = .error .nullToken := by
  rcases componentCount_cases hty with h | h | h | h | h | h | h | h <;>
    obtain ⟨rfl, rfl⟩ := h
  · rcases toks with _ | ⟨x, r⟩
    · simp [decodeParam, atof, Except.bind]
    · simp only [List.length_cons] at hlen
      omega
  · have hm := hmap rfl
    simp at hm
    rcases toks with _ | ⟨x, r⟩
    · simp [decodeParam, atol32, Except.bind, hm]
    · simp only [List.length_cons] at hlen
      omega
  · rcases toks with _ | ⟨x, _ | ⟨y, r⟩⟩
    · simp [decodeParam, atof, Except.bind]
    · simp [decodeParam, atof, Except.bind]
    · simp only [List.length_cons] at hlen
      omega
  · rcases toks with _ | ⟨x, _ | ⟨y, r⟩⟩
    · simp [decodeParam, atol32, Except.bind]
    · simp [decodeParam, atol32, Except.bind]
    · simp only [List.length_cons] at hlen
      omega
  · rcases toks with _ | ⟨x, _ | ⟨y, _ | ⟨z, r⟩⟩⟩
    · simp [decodeParam, atof, Except.bind]
    · simp [decodeParam, atof, Except.bind]
    · simp [decodeParam, atof, Except.bind]
    · simp only [List.length_cons] at hlen
      omega
  · rcases toks with _ | ⟨x, _ | ⟨y, _ | ⟨z, r⟩⟩⟩
    · simp [decodeParam, atol32, Except.bind]
    · simp [decodeParam, atol32, Except.bind]
    · simp [decodeParam, atol32, Except.bind]
    · simp only [List.length_cons] at hlen
      omega
  · rcases toks with _ | ⟨x, _ | ⟨y, _ | ⟨z, _ | ⟨w, r⟩⟩⟩⟩
    · simp [decodeParam, atof, Except.bind]
    · simp [decodeParam, atof, Except.bind]
    · simp [decodeParam, atof, Except.bind]
    · simp [decodeParam, atof, Except.bind]
    · simp only [List.length_cons] at hlen
      omega
  · rcases toks with _ | ⟨x, _ | ⟨y, _ | ⟨z, _ | ⟨w, r⟩⟩⟩⟩
    · simp [decodeParam, atol32, Except.bind]
    · simp [decodeParam, atol32, Except.bind]
    · simp [decodeParam, atol32, Except.bind]
    · simp [decodeParam, atol32, Except.bind]
    · simp only [List.length_cons] at hlen
      omega

theorem digitChar_facts : ∀ m, m < 10 →
    (Nat.digitChar m).isDigit = true ∧ (Nat.digitChar m).toNat - 48 = m ∧
    isspace (Nat.digitChar m) = false ∧ Nat.digitChar m ≠ '-' ∧ Nat.digitChar m ≠ '+' := by
  decide

/-- Reading the decimal digits that `Nat.toDigitsCore` writes for `n` in front
of `ds` continues the value read so far with the digits of `n`. -/
theorem digitsValue_toDigitsCore (fuel : Nat) :
    ∀ (n : Nat) (ds : List Char), n < fuel →
      ∃ p, ∀ acc, digitsValue acc (Nat.toDigitsCore 10 fuel n ds) =
        digitsValue (acc * 10 ^ p + n) ds := by
  induction fuel with
  | zero => intro n ds h; omega
  | succ fuel ih =>
    intro n ds h
    obtain ⟨hd1, hd2, -⟩ := digitChar_facts (n % 10) (Nat.mod_lt _ (by decide))
    simp only [Nat.toDigitsCore]
    by_cases h0 : n / 10 = 0
    · refine ⟨1, fun acc => ?_⟩
      have hn : n % 10 = n := Nat.mod_eq_of_lt (by omega)
      simp only [h0, if_true, digitsValue, hd1, hd2]
      rw [hn]
      simp
    · obtain ⟨p, hp⟩ := ih (n / 10) (Nat.digitChar (n % 10) :: ds) (by omega)
      refine ⟨p + 1, fun acc => ?_⟩
      simp only [h0, if_false]
      rw [hp]
      simp only [digitsValue, hd1, if_true, hd2]
      congr 1
      have := Nat.div_add_mod n 10
      rw [pow_succ]
      nlinarith [Nat.div_add_mod n 10]

theorem toDigitsCore_head (fuel : Nat) :
    ∀ (n : Nat) (ds : List Char),
      (∃ m rest, m < 10 ∧ ds = Nat.digitChar m :: rest) ∨ 0 < fuel →
      ∃ m rest, m < 10 ∧ Nat.toDigitsCore 10 fuel n ds = Nat.digitChar m :: rest := by
  induction fuel with
  | zero =>
    intro n ds h
    rcases h with h | h
    · simpa [Nat.toDigitsCore] using h
    · omega
  | succ fuel ih =>
    intro n ds _
    simp only [Nat.toDigitsCore]
    by_cases h0 : n / 10 = 0
    · simp only [h0, if_true]
      exact ⟨n % 10, ds, Nat.mod_lt _ (by decide), rfl⟩
    · simp only [h0, if_false]
      exact ih _ _ (Or.inl ⟨n % 10, ds, Nat.mod_lt _ (by decide), rfl⟩)

/-- The digits of the decimal numeral of `n`, read back. -/
theorem signedDigits_repr (n : Nat) :
    signedDigits ((Nat.repr n).toList.dropWhile isspace) = (n : Int) ∧
    signedDigits (('-' :: (Nat.repr n).toList).dropWhile isspace) = -(n : Int) := by
  have hl : (Nat.repr n).toList = Nat.toDigitsCore 10 (n + 1) n [] := rfl
  obtain ⟨m, rest, hm, hrest⟩ := toDigitsCore_head (n + 1) n [] (Or.inr (by omega))
  obtain ⟨p, hp⟩ := digitsValue_toDigitsCore (n + 1) n [] (by omega)
  obtain ⟨-, -, hs, hminus, hplus⟩ := digitChar_facts m hm
  have hv : digitsValue 0 (Nat.toDigitsCore 10 (n + 1) n []) = n := by
    rw [hp 0]
    simp [digitsValue]
  constructor
  · rw [hl, hrest, List.dropWhile_cons_of_neg (by simp [hs])]
    rw [← hrest]
    have : signedDigits (Nat.toDigitsCore 10 (n + 1) n []) =
        (digitsValue 0 (Nat.toDigitsCore 10 (n + 1) n []) : Int) := by
      rw [hrest]
      unfold signedDigits
      split
      · rename_i heq
        exact absurd (List.cons.inj heq).1 hminus
      · rename_i heq
        exact absurd (List.cons.inj heq).1 hplus
      · rfl
    rw [this, hv]
  · rw [List.dropWhile_cons_of_neg (by decide)]
    simp only [signedDigits]
    rw [hl, hv]

/-- The function `atol` on the decimal numeral of an integer of the `int32`
range gives that integer, also after the conversion to `int32`. -/
theorem toInt32_atol_repr (z : Int) (h1 : -(2 ^ 31) ≤ z) (h2 : z < 2 ^ 31) :
    toInt32 (atol (Int.repr z).toList) = z := by
  have hval : signedDigits ((Int.repr z).toList.dropWhile isspace) = z := by
    cases z with
    | ofNat n => exact (signedDigits_repr n).1
    | negSucc n =>
      have h := (signedDigits_repr (n + 1)).2
      have hr : (Int.repr (Int.negSucc n)).toList = '-' :: (Nat.repr (n + 1)).toList := by
        simp [Int.repr, String.toList]
      rw [hr, h]
      rfl
  unfold atol strtol
  rw [hval]
  unfold toInt32 LONG_MIN LONG_MAX
  rw [min_eq_right (by omega), max_eq_right (by omega)]
  omega

/-! ## The claims -/

/-- C1: when `parseBGFscene`, started on an empty node table, accepts a
document, the final length of the table is the number of top-level children
of `BGFscene` whose name is not `text`; and in any state one declaration
appends no entry when it is named `text` and exactly one entry otherwise
(Texture2D, Material, Transform, Mesh, Group or any unknown name). -/
theorem node_table_length (world : World) (root : XmlNode)
    (h : (parseBGFscene world root []).fault = none) :
    (parseBGFscene world root []).nodeList.length = (declarations root.child).length ∧
    ∀ (st : Loop) (d : XmlNode),
      (parseDeclaration st d).1.nodeList.length =
        st.nodeList.length + (if d.name = "text" then 0 else 1) := by
  obtain ⟨_, _, st, hst, hout⟩ := parseBGFscene_accepted h
  constructor
  · have hk := congrArg List.length (parseDeclarations_kinds _ _ _ hst)
    rw [hout]
    simpa using hk
  · intro st d
    have hk := congrArg List.length (parseDeclaration_kinds st d)
    simp only [List.length_map, List.length_append] at hk
    rw [hk]
    split_ifs <;> rfl

/-- C1 (witness): the example scene has seven declarations and a `text` child. -/
theorem node_table_length_witness :
    (parseBGFscene {} exDocScene []).nodeList.length = (declarations exDocScene.child).length ∧
    ∀ (st : Loop) (d : XmlNode),
      (parseDeclaration st d).1.nodeList.length =
        st.nodeList.length + (if d.name = "text" then 0 else 1) :=
  node_table_length {} exDocScene (by decide)

/-- C2: when `parseBGFscene`, started on an empty node table, accepts a
document, the entry at table index `k` belongs to the `k`-th declaration `d`
that is not named `text`, in document order: the entry is a Material,
Transform, Mesh or Group object when `d` has that name, and it is null exactly
when `d` has none of these four names (Texture2D or an unknown name).  In any
state, a declaration with an unknown name appends a null entry and raises no
fault. -/
theorem node_table_entry_kinds (world : World) (root : XmlNode)
    (h : (parseBGFscene world root []).fault = none) :
    (∀ (k : Nat) (d : XmlNode), (declarations root.child)[k]? = some d →
      ∃ e, (parseBGFscene world root []).nodeList[k]? = some e ∧
        (d.name = "Material" → ∃ m, e = some (.material m)) ∧
        (d.name = "Transform" → ∃ t, e = some (.transform t)) ∧
        (d.name = "Mesh" → ∃ m, e = some (.mesh m)) ∧
        (d.name = "Group" → ∃ g, e = some (.group g)) ∧
        (e = none ↔ (d.name ≠ "Material" ∧ d.name ≠ "Transform" ∧ d.name ≠ "Mesh" ∧
          d.name ≠ "Group"))) ∧
    ∀ (st : Loop) (d : XmlNode),
      d.name ∉ ["text", "Texture2D", "Material", "Transform", "Mesh", "Group"] →
      parseDeclaration st d = (⟨st.nodeList ++ [none], st.lastNode⟩, none) := by
  constructor
  · intro k d hk
    obtain ⟨e, he, hkind⟩ := accepted_entry_kind h k d hk
    exact ⟨e, he, entry_of_kind hkind⟩
  · intro st d hd
    simp only [List.mem_cons, List.mem_singleton, not_or, List.not_mem_nil, or_false] at hd
    obtain ⟨h1, h2, h3, h4, h5, h6⟩ := hd
    simp [parseDeclaration, h1, h2, h3, h4, h5, h6]

/-- C2 (witness): the kinds of the table entries of the example scene. -/
theorem node_table_entry_kinds_witness :
    (∀ (k : Nat) (d : XmlNode), (declarations exDocScene.child)[k]? = some d →
      ∃ e, (parseBGFscene {} exDocScene []).nodeList[k]? = some e ∧
        (d.name = "Material" → ∃ m, e = some (.material m)) ∧
        (d.name = "Transform" → ∃ t, e = some (.transform t)) ∧
        (d.name = "Mesh" → ∃ m, e = some (.mesh m)) ∧
        (d.name = "Group" → ∃ g, e = some (.group g)) ∧
        (e = none ↔ (d.name ≠ "Material" ∧ d.name ≠ "Transform" ∧ d.name ≠ "Mesh" ∧
          d.name ≠ "Group"))) ∧
    ∀ (st : Loop) (d : XmlNode),
      d.name ∉ ["text", "Texture2D", "Material", "Transform", "Mesh", "Group"] →
      parseDeclaration st d = (⟨st.nodeList ++ [none], st.lastNode⟩, none) :=
  node_table_entry_kinds {} exDocScene (by decide)

/-- C4 (counterexample): the document of two Materials has no Mesh and no
Group and is accepted, and yet the World's `node` list, empty at the call,
has one entry after it. -/
theorem world_node_unchanged_counterexample :
    (parseBGFscene {} exDocMaterials []).fault = none ∧
    (∀ d ∈ exDocMaterials.child, d.name ≠ "Mesh" ∧ d.name ≠ "Group") ∧
    (parseBGFscene {} exDocMaterials []).world.node ≠ ({} : World).node ∧
    (parseBGFscene {} exDocMaterials []).world.node = [none] := by
  decide

/-- C4 (amended): when `parseBGFscene` accepts a document with no top-level
Mesh and no top-level Group, it appends exactly one entry to the World's
`node` list, and that entry is the null pointer: the World is given no
object as root. -/
theorem world_root_null_without_mesh_or_group (world : World) (root : XmlNode)
    (nodeList : NodeList)
    (h : (parseBGFscene world root nodeList).fault = none)
    (hno : ∀ d ∈ root.child, d.name ≠ "Mesh" ∧ d.name ≠ "Group") :
    (parseBGFscene world root nodeList).world.node = world.node ++ [none] := by
  obtain ⟨_, _, st, hst, hout⟩ := parseBGFscene_accepted h
  rw [hout, parseDeclarations_lastNode_keep _ _ _ hst hno]

/-- C4 (witness): the document of two Materials. -/
theorem world_root_null_without_mesh_or_group_witness :
    (parseBGFscene {} exDocMaterials []).world.node = ({} : World).node ++ [none] :=
  world_root_null_without_mesh_or_group {} exDocMaterials [] (by decide) (by decide)

set_option maxRecDepth 8000 in
/-- C5 (counterexample): the document whose Transform names its own index 0
as `child` and whose Group names its own index 1 in its body is accepted from
an empty table; the Transform at index 0 then holds a reference resolved from
index 0 and the Group at index 1 one resolved from index 1, neither of which
is an earlier index. -/
theorem references_backward_only_counterexample :
    (parseBGFscene {} exDocSelf []).fault = none ∧
    (∃ t j, (parseBGFscene {} exDocSelf []).nodeList[0]? = some (some (.transform t)) ∧
      t.node = some j ∧ ¬ j < 0) ∧
    (∃ g j, (parseBGFscene {} exDocSelf []).nodeList[1]? = some (some (.group g)) ∧
      some j ∈ g.child ∧ ¬ j < 1) := by
  refine ⟨by decide,
    ⟨⟨some 0, scanFloats 12 "1 0 0 0 1 0 0 0 1 0 0 0".toList⟩, 0, by decide, rfl, by decide⟩,
    ⟨⟨[some 1]⟩, 1, by decide, by decide, by decide⟩⟩

/-- C5 (amended): when `parseBGFscene`, started on an empty node table,
accepts a document, every reference held by the object at table index `i`
was resolved from an index `j` that is not a later one: `j ≤ i` for the child
of a Transform and for each child of a Group (either may refer to itself),
and `j < i` for each material of a Mesh. -/
theorem references_never_forward (world : World) (root : XmlNode)
    (h : (parseBGFscene world root []).fault = none) (i : Nat) :
    (∀ t, (parseBGFscene world root []).nodeList[i]? = some (some (.transform t)) →
      ∀ j, t.node = some j → j ≤ i) ∧
    (∀ g, (parseBGFscene world root []).nodeList[i]? = some (some (.group g)) →
      ∀ j, some j ∈ g.child → j ≤ i) ∧
    (∀ m, (parseBGFscene world root []).nodeList[i]? = some (some (.mesh m)) →
      ∀ j, j ∈ m.materialList → j < i) := by
  obtain ⟨_, _, st, hst, hout⟩ := parseBGFscene_accepted h
  have hrb := parseDeclarations_refsBack root.child ⟨[], none⟩ (by intro i e hi; simp at hi)
  rw [hst] at hrb
  rw [hout]
  exact ⟨fun t ht => hrb i _ ht, fun g hg => hrb i _ hg, fun m hm => hrb i _ hm⟩

/-- C5 (witness): the example scene. -/
theorem references_never_forward_witness :
    (∀ t, (parseBGFscene {} exDocScene []).nodeList[4]? = some (some (.transform t)) →
      ∀ j, t.node = some j → j ≤ 4) ∧
    (∀ g, (parseBGFscene {} exDocScene []).nodeList[4]? = some (some (.group g)) →
      ∀ j, some j ∈ g.child → j ≤ 4) ∧
    (∀ m, (parseBGFscene {} exDocScene []).nodeList[4]? = some (some (.mesh m)) →
      ∀ j, j ∈ m.materialList → j < 4) :=
  references_never_forward {} exDocScene (by decide) 4

set_option maxRecDepth 8000 in
/-- C6 (counterexample): the body of the Transform of this document holds
thirteen tokens, each a floating-point number, and the document is accepted:
no format error is raised for a body longer than twelve numbers. -/
theorem transform_body_not_twelve_counterexample :
    (strtokAll (c_str "1 0 0 0 1 0 0 0 1 0 0 0 5")).length = 13 ∧
    (∀ t ∈ strtokAll (c_str "1 0 0 0 1 0 0 0 1 0 0 0 5"), isNumber t = true) ∧
    (parseBGFscene {} exDocLong []).fault = none := by
  decide

/-- C6 (amended): for a Transform declaration that the parser reaches, whose
`child` attributes resolve and whose body tokens are all floating-point
numbers: when the body has fewer than twelve tokens, `parseBGFscene` fails
with the format error that reports the malformed transform; when it has
twelve or more, the declaration raises no fault, the matrix is read from the
first twelve tokens and the tokens after the twelfth are ignored. -/
theorem transform_body_token_count (world : World) (nodeList : NodeList) (root d : XmlNode)
    (pre post : List XmlNode) (st : Loop)
    (hroot : root.name = "BGFscene") (hchild : root.child = pre ++ d :: post)
    (hpre : parseDeclarations ⟨nodeList, none⟩ pre = (st, none))
    (hd : d.name = "Transform")
    (hprops : (transformProps (st.nodeList ++ [some (.transform {})]) {} d.prop).2 = none)
    (hnum : ∀ t ∈ strtokAll (c_str d.content), isNumber t = true) :
    ((strtokAll (c_str d.content)).length < 12 →
      (parseBGFscene world root nodeList).fault =
        some (.FATAL "invalid number of elements in RIVL transform node") ∧
      (Fault.FATAL "invalid number of elements in RIVL transform node").isFormatError
        = true) ∧
    (12 ≤ (strtokAll (c_str d.content)).length →
      parseDeclaration st d =
        (⟨st.nodeList ++ [some (.transform
            { node := (transformProps (st.nodeList ++ [some (.transform {})]) {}
                d.prop).1.node,
              xfm := ((strtokAll (c_str d.content)).take 12).map
                (fun t => ⟨String.mk t⟩) })],
          st.lastNode⟩, none)) := by
  have hcount := sscanfCount_tokens (c_str d.content) hnum
  have hvals := scanFloats_tokens 12 (c_str d.content) hnum
  constructor
  · intro hlt
    refine ⟨?_, rfl⟩
    have hne : sscanfCount 12 (c_str d.content) ≠ 12 := hcount.mpr hlt
    have hdecl : (parseDeclaration st d).2 =
        some (.FATAL "invalid number of elements in RIVL transform node") := by
      simp only [parseDeclaration, hd, declTransform]
      simp [hprops, hne]
    have hloop := parseDeclarations_fault_at post hpre hdecl
    rw [← hchild] at hloop
    rw [parseBGFscene_fault_of hroot (by rw [hchild]; simp) hloop]
  · intro hge
    have heq : ¬ sscanfCount 12 (c_str d.content) ≠ 12 := by
      rw [hcount]
      omega
    simp only [parseDeclaration, hd, declTransform]
    simp [hprops, heq, hvals]

set_option maxRecDepth 8000 in
/-- C6 (witness): a Transform with eleven numbers in its body, after a
Material. -/
theorem transform_body_token_count_witness :
    (parseBGFscene {} exDocShort []).fault =
      some (.FATAL "invalid number of elements in RIVL transform node") := by
  have h := transform_body_token_count {} [] exDocShort exTransformShort
    [.mk "Material" "" [] []] [] ⟨[some (.material {})], none⟩
    (by decide) rfl (by decide) (by decide) (by decide) (by decide)
  exact (h.1 (by decide)).1

/-- C7: a Mesh `materiallist` child whose tokens all name, through `atoi`,
table entries that are Materials is processed without a fault; the material
list of the mesh grows by the table indices named by the tokens, one entry
per token, in token order and with duplicates kept, while the other fields of
the mesh stay as they were; the table keeps its length, the reference count of
every Material entry grows by the number of occurrences of its index among
the tokens, and every entry that is not a Material is unchanged. -/
theorem materiallist_appends_in_order (mesh : PTMTriangleMesh) (nodeList : NodeList)
    (child : XmlNode) (hname : child.name = "materiallist")
    (htok : ∀ s ∈ strtokAll (c_str child.content),
      ∃ m, nodeList[toSizeT (atoi s)]? = some (some (.material m))) :
    ∃ nodeList1,
      meshChild mesh nodeList child =
        (({ mesh with materialList := mesh.materialList ++
            (strtokAll (c_str child.content)).map (fun s => toSizeT (atoi s)) },
          nodeList1), none) ∧
      nodeList1.length = nodeList.length ∧
      ∀ j : Nat,
        (∀ m : Material, nodeList[j]? = some (some (.material m)) →
          nodeList1[j]? = some (some (.material { m with refCount := m.refCount +
            ((strtokAll (c_str child.content)).map (fun s => toSizeT (atoi s))).count j }))) ∧
        ((∀ m : Material, nodeList[j]? ≠ some (some (.material m))) →
            nodeList1[j]? = nodeList[j]?) := by
  obtain ⟨nodeList1, hrun, hrest⟩ := materialList_ok _ mesh nodeList htok
  refine ⟨nodeList1, ?_, hrest⟩
  simp [meshChild, hname, hrun]

/-- C7 (witness): the body `0 2 0` over a table with Materials at 0 and 2
gives the material list 0, 2, 0, two increments at entry 0 and one at entry 2. -/
theorem materiallist_appends_in_order_witness :
    (strtokAll (c_str exMaterialList.content)).map (fun s => toSizeT (atoi s)) = [0, 2, 0] ∧
    ∃ nodeList1,
      meshChild {} exTable exMaterialList =
        (({ materialList :=
            ([] ++ (strtokAll (c_str exMaterialList.content)).map
              (fun s => toSizeT (atoi s))) },
          nodeList1), none) ∧
      nodeList1.length = exTable.length ∧
      ∀ j : Nat,
        (∀ m : Material, exTable[j]? = some (some (.material m)) →
          nodeList1[j]? = some (some (.material { m with refCount := (m.refCount +
            ((strtokAll (c_str exMaterialList.content)).map
              (fun s => toSizeT (atoi s))).count j) }))) ∧
        ((∀ m : Material, exTable[j]? ≠ some (some (.material m))) →
            nodeList1[j]? = exTable[j]?) := by
  have ht : strtokAll (c_str exMaterialList.content) =
      ["0".toList, "2".toList, "0".toList] := by decide
  have htok : ∀ s ∈ strtokAll (c_str exMaterialList.content),
      ∃ m, exTable[toSizeT (atoi s)]? = some (some (.material m)) := by
    intro s hs
    rw [ht] at hs
    simp only [List.mem_cons, List.mem_singleton, List.not_mem_nil, or_false] at hs
    rcases hs with rfl | rfl | rfl
    · exact ⟨{ name := "a" }, by decide⟩
    · exact ⟨{ name := "b" }, by decide⟩
    · exact ⟨{ name := "a" }, by decide⟩
  exact ⟨by decide, materiallist_appends_in_order {} exTable exMaterialList (by decide) htok⟩

/-- C8: a Material `param` child whose type tag is one of float, float2,
float3, float4, int, int2, int3, int4 (for `int`, with a name that does not
contain `map_`) and whose body has at least as many tokens as the tag has
components is decoded without a fault: under the name of the `param` the
material stores the value of the declared type whose components are built
from the first tokens, in order, whatever tokens follow.  A float component
is the `float` that `atof` makes of its token; an integer component is the
`int32` that `atol` reads from its token, which for the decimal numeral of an
integer of the `int32` range is that integer.  What is stored under a name is
what the material then holds under it. -/
theorem material_param_stores_value (mat : Material) (child : XmlNode)
    (hname : child.name = "param") :
    (∀ x rest, (paramAttrs "" "" child.prop).2 = "float" →
      strtokAll (c_str child.content) = x :: rest →
      materialChild mat child =
        .ok (mat.setParam (paramAttrs "" "" child.prop).1 (.float ⟨String.mk x⟩))) ∧
    (∀ x y rest, (paramAttrs "" "" child.prop).2 = "float2" →
      strtokAll (c_str child.content) = x :: y :: rest →
      materialChild mat child =
        .ok (mat.setParam (paramAttrs "" "" child.prop).1
          (.vec2f ⟨String.mk x⟩ ⟨String.mk y⟩))) ∧
    (∀ x y z rest, (paramAttrs "" "" child.prop).2 = "float3" →
      strtokAll (c_str child.content) = x :: y :: z :: rest →
      materialChild mat child =
        .ok (mat.setParam (paramAttrs "" "" child.prop).1
          (.vec3f ⟨String.mk x⟩ ⟨String.mk y⟩ ⟨String.mk z⟩))) ∧
    (∀ x y z w rest, (paramAttrs "" "" child.prop).2 = "float4" →
      strtokAll (c_str child.content) = x :: y :: z :: w :: rest →
      materialChild mat child =
        .ok (mat.setParam (paramAttrs "" "" child.prop).1
          (.vec4f ⟨String.mk x⟩ ⟨String.mk y⟩ ⟨String.mk z⟩ ⟨String.mk w⟩))) ∧
    (∀ x rest, (paramAttrs "" "" child.prop).2 = "int" →
      ¬ "map_".toList <:+: (paramAttrs "" "" child.prop).1.toList →
      strtokAll (c_str child.content) = x :: rest →
      materialChild mat child =
        .ok (mat.setParam (paramAttrs "" "" child.prop).1 (.int (toInt32 (atol x))))) ∧
    (∀ x y rest, (paramAttrs "" "" child.prop).2 = "int2" →
      strtokAll (c_str child.content) = x :: y :: rest →
      materialChild mat child =
        .ok (mat.setParam (paramAttrs "" "" child.prop).1
          (.vec2i (toInt32 (atol x)) (toInt32 (atol y))))) ∧
    (∀ x y z rest, (paramAttrs "" "" child.prop).2 = "int3" →
      strtokAll (c_str child.content) = x :: y :: z :: rest →
      materialChild mat child =
        .ok (mat.setParam (paramAttrs "" "" child.prop).1
          (.vec3i (toInt32 (atol x)) (toInt32 (atol y)) (toInt32 (atol z))))) ∧
    (∀ x y z w rest, (paramAttrs "" "" child.prop).2 = "int4" →
      strtokAll (c_str child.content) = x :: y :: z :: w :: rest →
      materialChild mat child =
        .ok (mat.setParam (paramAttrs "" "" child.prop).1
          (.vec4i (toInt32 (atol x)) (toInt32 (atol y)) (toInt32 (atol z))
            (toInt32 (atol w))))) ∧
    (∀ n : Int, -(2 ^ 31) ≤ n → n < 2 ^ 31 → toInt32 (atol (Int.repr n).toList) = n) ∧
    (∀ (name : String) (v : ParamValue), (mat.setParam name v).getParam name = some v) := by
  refine ⟨?_, ?_, ?_, ?_, ?_, ?_, ?_, ?_, toInt32_atol_repr, getParam_setParam mat⟩
  · intro x rest hty htoks
    simp [materialChild, hname, decodeParam, hty, htoks, atof, Except.bind]
  · intro x y rest hty htoks
    simp [materialChild, hname, decodeParam, hty, htoks, atof, Except.bind]
  · intro x y z rest hty htoks
    simp [materialChild, hname, decodeParam, hty, htoks, atof, Except.bind]
  · intro x y z w rest hty htoks
    simp [materialChild, hname, decodeParam, hty, htoks, atof, Except.bind]
  · intro x rest hty hmap htoks
    rw [← contains_iff_infix] at hmap
    simp at hmap
    simp [materialChild, hname, decodeParam, hty, htoks, atol32, Except.bind, hmap]
  · intro x y rest hty htoks
    simp [materialChild, hname, decodeParam, hty, htoks, atol32, Except.bind]
  · intro x y z rest hty htoks
    simp [materialChild, hname, decodeParam, hty, htoks, atol32, Except.bind]
  · intro x y z w rest hty htoks
    simp [materialChild, hname, decodeParam, hty, htoks, atol32, Except.bind]

/-- C8 (witness), on the examples of the spec: `float3` with body
`1.0 2.0 3.0` stores the vector of the three floats 1.0, 2.0, 3.0 under `kd`,
and `int` with body `7` stores the integer 7 under `metallic`, which is what
the material then holds under `metallic`. -/
theorem material_param_stores_value_witness :
    materialChild {} exParamFloat3 =
      .ok (({} : Material).setParam "kd" (.vec3f ⟨"1.0"⟩ ⟨"2.0"⟩ ⟨"3.0"⟩)) ∧
    materialChild {} exParamInt = .ok (({} : Material).setParam "metallic" (.int 7)) ∧
    (({} : Material).setParam "metallic" (.int 7)).getParam "metallic" = some (.int 7) := by
  have hf := (material_param_stores_value {} exParamFloat3 (by decide)).2.2.1
    "1.0".toList "2.0".toList "3.0".toList [] (by decide) (by decide)
  have hall := material_param_stores_value {} exParamInt (by decide)
  have hi := hall.2.2.2.2.1 (Int.repr 7).toList [] (by decide) (by decide) (by decide)
  have hpin := hall.2.2.2.2.2.2.2.2.1 7 (by decide) (by decide)
  rw [hpin] at hi
  exact ⟨hf, hi, hall.2.2.2.2.2.2.2.2.2 "metallic" (.int 7)⟩

/-- C9: for a Material `param` child that the parser reaches (the
declarations before its Material and the children of the Material before it
raise no fault) and whose `type` attribute is none of float, float2, float3,
float4, int, int2, int3, int4 (an absent attribute leaves the type empty),
`parseBGFscene` fails with a thrown `std::runtime_error`, a format error,
whose message contains the type tag, whatever the name and the body of the
`param` are. -/
theorem unknown_param_type_fails (world : World) (nodeList : NodeList) (root d c : XmlNode)
    (pre post cpre cpost : List XmlNode) (st : Loop) (mat : Material)
    (hroot : root.name = "BGFscene") (hchild : root.child = pre ++ d :: post)
    (hpre : parseDeclarations ⟨nodeList, none⟩ pre = (st, none))
    (hd : d.name = "Material") (hdc : d.child = cpre ++ c :: cpost)
    (hcpre : materialChildren (materialProps {} d.prop) cpre = (mat, none))
    (hc : c.name = "param")
    (hty : (paramAttrs "" "" c.prop).2 ∉
      ["float", "float2", "float3", "float4", "int", "int2", "int3", "int4"]) :
    ∃ msg, (parseBGFscene world root nodeList).fault = some (.runtime_error msg) ∧
      (Fault.runtime_error msg).isFormatError = true ∧
      (paramAttrs "" "" c.prop).2.toList <:+: msg.toList := by
  refine ⟨"unknown parameter type \'" ++ (paramAttrs "" "" c.prop).2 ++
    "\' when parsing RIVL materials.", ?_, rfl, ?_⟩
  · have hmc : materialChild mat c = .error (.runtime_error
        ("unknown parameter type \'" ++ (paramAttrs "" "" c.prop).2 ++
          "\' when parsing RIVL materials.")) := by
      simp only [List.mem_cons, List.mem_singleton, not_or, List.not_mem_nil, or_false] at hty
      obtain ⟨h1, h2, h3, h4, h5, h6, h7, h8⟩ := hty
      simp [materialChild, hc, decodeParam, h1, h2, h3, h4, h5, h6, h7, h8]
    have hmat : materialChildren (materialProps {} d.prop) d.child = (mat, some (.runtime_error
        ("unknown parameter type \'" ++ (paramAttrs "" "" c.prop).2 ++
          "\' when parsing RIVL materials."))) := by
      rw [hdc, materialChildren_append, hcpre]
      simp [materialChildren, hmc]
    have hdecl : (parseDeclaration st d).2 = some (.runtime_error
        ("unknown parameter type \'" ++ (paramAttrs "" "" c.prop).2 ++
          "\' when parsing RIVL materials.")) := by
      simp [parseDeclaration, hd, declMaterial, hmat]
    have hloop := parseDeclarations_fault_at post hpre hdecl
    rw [← hchild] at hloop
    rw [parseBGFscene_fault_of hroot (by rw [hchild]; simp) hloop]
  · simp only [String.toList, String.data_append]
    exact ⟨_, _, rfl⟩

/-- C9 (witness): a `param` without a `type` attribute stops the parse of its
document with a format error. -/
theorem unknown_param_type_fails_witness :
    ∃ msg, (parseBGFscene {} exDocUntyped []).fault = some (.runtime_error msg) ∧
      (Fault.runtime_error msg).isFormatError = true ∧
      (paramAttrs "" "" exParamUntyped.prop).2.toList <:+: msg.toList :=
  unknown_param_type_fails {} [] exDocUntyped exMaterialUntyped exParamUntyped [] [] [] []
    ⟨[], none⟩ { name := "m" } (by decide) rfl (by decide) (by decide) rfl
    (by decide) (by decide) (by decide)

/-- C10: a Material `param` child of type `int` whose name contains `map_` is
processed without a fault and leaves the material, hence its parameter
mapping, as it was, whatever the body is. -/
theorem material_int_map_param_discarded (mat : Material) (child : XmlNode)
    (hname : child.name = "param")
    (hty : (paramAttrs "" "" child.prop).2 = "int")
    (hmap : "map_".toList <:+: (paramAttrs "" "" child.prop).1.toList) :
    materialChild mat child = .ok mat ∧
      ∀ rest, materialChildren mat (child :: rest) = materialChildren mat rest := by
  rw [← contains_iff_infix] at hmap
  have h : materialChild mat child = .ok mat := by
    simp at hmap
    simp [materialChild, hname, decodeParam, hty, hmap]
  exact ⟨h, fun rest => by simp [materialChildren, h]⟩

/-- C10 (witness): `map_kd` of type `int`. -/
theorem material_int_map_param_discarded_witness :
    materialChild { name := "m" } exParamMap = .ok { name := "m" } ∧
      ∀ rest, materialChildren { name := "m" } (exParamMap :: rest) =
        materialChildren { name := "m" } rest :=
  material_int_map_param_discarded { name := "m" } exParamMap (by decide) (by decide)
    (by decide)

/-- C11: a Group declaration whose body text is empty is processed without a
fault: one entry is appended to the table, a Group with no children, and the
pointer to it becomes `lastNode`, the candidate for the root. -/
theorem empty_group_parses (st : Loop) (d : XmlNode) (hd : d.name = "Group")
    (hc : d.content = "") :
    parseDeclaration st d =
      (⟨st.nodeList ++ [some (.group { child := [] })], some st.nodeList.length⟩, none) := by
  simp [parseDeclaration, hd, declGroup, hc]

/-- C11 (witness): an empty Group after a placeholder entry. -/
theorem empty_group_parses_witness :
    parseDeclaration ⟨[none], none⟩ exGroupEmpty =
      (⟨[none] ++ [some (.group { child := [] })], some 1⟩, none) :=
  empty_group_parses ⟨[none], none⟩ exGroupEmpty (by decide) (by decide)

set_option maxRecDepth 8000 in
/-- C12 (counterexample): the Group of this document names index 5 while the
table holds one entry, the Group itself; the access `nodeList[5]` is outside
the table and the parse does not go on to a Group with a null child. -/
theorem group_index_outside_table_counterexample :
    (parseBGFscene {} exDocGroupFar []).fault = some (.outOfRange 5) ∧
    (parseBGFscene {} exDocGroupFar []).world = {} := by
  decide

/-- C12 (amended): a Group declaration with a non-empty body whose tokens all
name indices inside the table (which already holds the Group itself) is
processed without a fault; its child list has one entry per token, in token
order, the `i`-th being the pointer found at the index that the `i`-th token
names: null when that entry is a placeholder, the pointer to the object of
that entry otherwise.  The Group becomes `lastNode`. -/
theorem group_children_in_token_order (st : Loop) (d : XmlNode) (hd : d.name = "Group")
    (hc : d.content ≠ "")
    (hin : ∀ s ∈ strtokAll (c_str d.content), toSizeT (atoi s) ≤ st.nodeList.length) :
    parseDeclaration st d =
      (⟨st.nodeList ++ [some (.group ⟨(strtokAll (c_str d.content)).map
          (fun s => resolve (st.nodeList ++ [some (.group {})]) (toSizeT (atoi s)))⟩)],
        some st.nodeList.length⟩, none) ∧
    ∀ (i : Nat) (e : Option Node), (st.nodeList ++ [some (.group {})])[i]? = some e →
      (e = none → resolve (st.nodeList ++ [some (.group {})]) i = none) ∧
      (e ≠ none → resolve (st.nodeList ++ [some (.group {})]) i = some i) := by
  constructor
  · have h := groupChildren_ok (st.nodeList ++ [some (.group {})])
      (strtokAll (c_str d.content)) {} (by
        intro s hs
        have := hin s hs
        simp
        omega)
    simp [parseDeclaration, hd, declGroup, hc, h]
  · intro i e he
    constructor
    · intro h0
      subst h0
      simp [resolve, he, ptrOf]
    · intro h0
      cases e with
      | none => exact absurd rfl h0
      | some n => simp [resolve, he, ptrOf]

/-- C12 (witness): a Group after a Material and a placeholder, naming the
placeholder, the Material and itself. -/
theorem group_children_in_token_order_witness :
    parseDeclaration ⟨[some (.material {}), none], none⟩ exGroupThree =
      (⟨[some (.material {}), none, some (.group { child := [none, some 0, some 2] })],
        some 2⟩, none) := by
  have h := (group_children_in_token_order ⟨[some (.material {}), none], none⟩ exGroupThree
    (by decide) (by decide) (by decide)).1
  rw [h]
  decide

/-- C13: for a Mesh declaration that the parser reaches and a child `c` of it
whose name is none of `text`, `vertex`, `normal`, `texcoord`, `prim`,
`materiallist`, when the children before `c` raise no fault, `parseBGFscene`
fails with a thrown `std::runtime_error`, a format error, whose message
contains the name of `c`; the children before `c` have been processed, in
document order, and the Mesh and the table are left as they were after them. -/
theorem unknown_mesh_child_fails (world : World) (nodeList : NodeList) (root d c : XmlNode)
    (pre post cpre cpost : List XmlNode) (st : Loop) (r : PTMTriangleMesh × NodeList)
    (hroot : root.name = "BGFscene") (hchild : root.child = pre ++ d :: post)
    (hpre : parseDeclarations ⟨nodeList, none⟩ pre = (st, none))
    (hd : d.name = "Mesh") (hdc : d.child = cpre ++ c :: cpost)
    (hcpre : meshChildren {} (st.nodeList ++ [some (.mesh {})]) cpre = (r, none))
    (hc : c.name ∉ ["text", "vertex", "normal", "texcoord", "prim", "materiallist"]) :
    ∃ msg, (parseBGFscene world root nodeList).fault = some (.runtime_error msg) ∧
      (Fault.runtime_error msg).isFormatError = true ∧
      c.name.toList <:+: msg.toList ∧
      meshChildren {} (st.nodeList ++ [some (.mesh {})]) d.child =
        (r, some (.runtime_error msg)) := by
  simp only [List.mem_cons, List.mem_singleton, not_or, List.not_mem_nil, or_false] at hc
  obtain ⟨h1, h2, h3, h4, h5, h6⟩ := hc
  have hmc : meshChild r.1 r.2 c = ((r.1, r.2), some (.runtime_error
      ("unknown child node type \'" ++ c.name ++ "\' for mesh node"))) := by
    simp [meshChild, h1, h2, h3, h4, h5, h6]
  obtain ⟨hf, hm⟩ := mesh_child_fault world hroot hchild hpre hd hdc hcpre
    (by rw [hmc])
  refine ⟨_, hf, rfl, ?_, ?_⟩
  · simp only [String.toList, String.data_append]
    exact ⟨_, _, rfl⟩
  · rw [hm, hmc]

/-- C13 (witness): a Mesh with a `vertex` child and then a `color` child. -/
theorem unknown_mesh_child_fails_witness :
    ∃ msg, (parseBGFscene {} exDocColor []).fault = some (.runtime_error msg) ∧
      (Fault.runtime_error msg).isFormatError = true ∧
      exColor.name.toList <:+: msg.toList ∧
      meshChildren {} ([some (.material {})] ++ [some (.mesh {})]) exMeshColor.child =
        (({ vertex := some ⟨0, 4⟩ }, [some (.material {}), some (.mesh {})]),
          some (.runtime_error msg)) :=
  unknown_mesh_child_fails {} [] exDocColor exMeshColor exColor [.mk "Material" "" [] []] []
    [exVertex] [] ⟨[some (.material {})], none⟩
    ({ vertex := some ⟨0, 4⟩ }, [some (.material {}), some (.mesh {})])
    (by decide) rfl (by decide) (by decide) rfl (by decide) (by decide)

/-- C14: a Mesh child named `vertex`, `normal`, `texcoord` or `prim` whose
`ofs` and `num` attributes read, through `atol`, as the non-negative integers
`o` and `n` is processed without a fault: the field of the same kind
(`vertex`, `normal`, `texcoord`, `triangle`) is bound to the array of `n`
elements at byte offset `o` of the binary file, and the other three arrays,
the material list and the table are left as they were. -/
theorem mesh_array_binding (mesh : PTMTriangleMesh) (nodeList : NodeList) (child : XmlNode)
    (so sn : String) (o n : Nat)
    (hofs : lastAttr "ofs" child.prop = some so) (hnum : lastAttr "num" child.prop = some sn)
    (ho : atol (c_str so) = (o : Int)) (hn : atol (c_str sn) = (n : Int)) :
    (child.name = "vertex" →
      meshChild mesh nodeList child = (({ mesh with vertex := some ⟨o, n⟩ }, nodeList), none)) ∧
    (child.name = "normal" →
      meshChild mesh nodeList child = (({ mesh with normal := some ⟨o, n⟩ }, nodeList), none)) ∧
    (child.name = "texcoord" →
      meshChild mesh nodeList child =
        (({ mesh with texcoord := some ⟨o, n⟩ }, nodeList), none)) ∧
    (child.name = "prim" →
      meshChild mesh nodeList child =
        (({ mesh with triangle := some ⟨o, n⟩ }, nodeList), none)) := by
  have h := dataArray_ok hofs hnum ho hn
  refine ⟨?_, ?_, ?_, ?_⟩ <;> intro hname <;> simp [meshChild, hname, h]

/-- C14 (witness): `ofs="0" num="4"` on a `vertex` child binds the array of
four elements at byte 0. -/
theorem mesh_array_binding_witness :
    meshChild { normal := some ⟨96, 4⟩, materialList := [0] } exTable exVertex =
      (({ vertex := some ⟨0, 4⟩, normal := some ⟨96, 4⟩, materialList := [0] }, exTable),
        none) :=
  (mesh_array_binding { normal := some ⟨96, 4⟩, materialList := [0] } exTable exVertex
    "0" "4" 0 4 (by decide) (by decide) (by decide) (by decide)).1 (by decide)

/-- C15: for a Mesh declaration that the parser reaches and a child `c` of it
named `vertex`, `normal`, `texcoord` or `prim` that has no `ofs` attribute or
no `num` attribute, when the children before `c` raise no fault,
`parseBGFscene` stops at a failed `assert`; the Mesh is left as it was
before `c`, so no array is bound for `c`. -/
theorem mesh_array_missing_attribute (world : World) (nodeList : NodeList)
    (root d c : XmlNode) (pre post cpre cpost : List XmlNode) (st : Loop)
    (r : PTMTriangleMesh × NodeList)
    (hroot : root.name = "BGFscene") (hchild : root.child = pre ++ d :: post)
    (hpre : parseDeclarations ⟨nodeList, none⟩ pre = (st, none))
    (hd : d.name = "Mesh") (hdc : d.child = cpre ++ c :: cpost)
    (hcpre : meshChildren {} (st.nodeList ++ [some (.mesh {})]) cpre = (r, none))
    (hc : c.name ∈ ["vertex", "normal", "texcoord", "prim"])
    (hmiss : (∀ p ∈ c.prop, p.name ≠ "ofs") ∨ (∀ p ∈ c.prop, p.name ≠ "num")) :
    ∃ e, (parseBGFscene world root nodeList).fault = some (.assertion e) ∧
      meshChild r.1 r.2 c = (r, some (.assertion e)) ∧
      meshChildren {} (st.nodeList ++ [some (.mesh {})]) d.child =
        (r, some (.assertion e)) := by
  obtain ⟨e, he⟩ := dataArray_missing hmiss
  have hmc : meshChild r.1 r.2 c = ((r.1, r.2), some (.assertion e)) := by
    simp only [List.mem_cons, List.mem_singleton, List.not_mem_nil, or_false] at hc
    rcases hc with h | h | h | h <;> simp [meshChild, h, he]
  obtain ⟨hf, hm⟩ := mesh_child_fault world hroot hchild hpre hd hdc hcpre
    (by rw [hmc])
  refine ⟨e, hf, hmc, ?_⟩
  rw [hm, hmc]

/-- C15 (witness): a `prim` child with `ofs` but without `num`, after a
`vertex` child. -/
theorem mesh_array_missing_attribute_witness :
    ∃ e, (parseBGFscene {} exDocNoNum []).fault = some (.assertion e) ∧
      meshChild { vertex := some ⟨0, 4⟩ } [some (.material {}), some (.mesh {})] exPrimNoNum =
        (({ vertex := some ⟨0, 4⟩ }, [some (.material {}), some (.mesh {})]),
          some (.assertion e)) ∧
      meshChildren {} ([some (.material {})] ++ [some (.mesh {})]) exMeshNoNum.child =
        (({ vertex := some ⟨0, 4⟩ }, [some (.material {}), some (.mesh {})]),
          some (.assertion e)) :=
  mesh_array_missing_attribute {} [] exDocNoNum exMeshNoNum exPrimNoNum
    [.mk "Material" "" [] []] [] [exVertex] [] ⟨[some (.material {})], none⟩
    ({ vertex := some ⟨0, 4⟩ }, [some (.material {}), some (.mesh {})])
    (by decide) rfl (by decide) (by decide) rfl (by decide) (by decide)
    (Or.inr (by decide))

set_option maxRecDepth 8000 in
/-- C16 (the code at the failing input): a Transform without a `child`
attribute and with twelve numbers in its body is accepted, and the Transform
in the table has a null child pointer: no assertion is reached. -/
theorem transform_without_child_accepted :
    (parseBGFscene {} exDocNoChild []).fault = none ∧
    (parseBGFscene {} exDocNoChild []).nodeList =
      [some (.transform ⟨none,
        [⟨"1"⟩, ⟨"0"⟩, ⟨"0"⟩, ⟨"0"⟩, ⟨"1"⟩, ⟨"0"⟩, ⟨"0"⟩, ⟨"0"⟩, ⟨"1"⟩, ⟨"0"⟩, ⟨"0"⟩,
          ⟨"0"⟩]⟩)] := by
  decide

/-- C17: for a Mesh declaration that the parser reaches and a `materiallist`
child `c` of it, when the children before `c` raise no fault, the tokens
before the token `s` name Materials, and `s` names a table entry that is not
a Material (a placeholder, a Transform, a Mesh or a Group), `parseBGFscene`
stops at the failed `assert(mat.ptr)`; the material list of the Mesh has then
grown by the tokens before `s` only, and the entry that `s` names is as it
was, with no reference count incremented for it. -/
theorem materiallist_not_material_asserts (world : World) (nodeList : NodeList)
    (root d c : XmlNode) (pre post cpre cpost : List XmlNode) (st : Loop)
    (r : PTMTriangleMesh × NodeList) (tpre tpost : List (List Char)) (s : List Char)
    (e : Option Node)
    (hroot : root.name = "BGFscene") (hchild : root.child = pre ++ d :: post)
    (hpre : parseDeclarations ⟨nodeList, none⟩ pre = (st, none))
    (hd : d.name = "Mesh") (hdc : d.child = cpre ++ c :: cpost)
    (hcpre : meshChildren {} (st.nodeList ++ [some (.mesh {})]) cpre = (r, none))
    (hc : c.name = "materiallist")
    (htoks : strtokAll (c_str c.content) = tpre ++ s :: tpost)
    (htpre : ∀ t ∈ tpre, ∃ m, r.2[toSizeT (atoi t)]? = some (some (.material m)))
    (hs : r.2[toSizeT (atoi s)]? = some e) (he : ∀ m, e ≠ some (.material m)) :
    (parseBGFscene world root nodeList).fault = some (.assertion "mat.ptr") ∧
    ∃ nodeList1,
      meshChild r.1 r.2 c =
        (({ r.1 with materialList :=
            (r.1.materialList ++ tpre.map (fun t => toSizeT (atoi t))) }, nodeList1),
          some (.assertion "mat.ptr")) ∧
      nodeList1.length = r.2.length ∧
      nodeList1[toSizeT (atoi s)]? = some e := by
  obtain ⟨nodeList1, hrun, hlen, hent⟩ := materialList_ok tpre r.1 r.2 htpre
  have hs1 : nodeList1[toSizeT (atoi s)]? = some e := by
    rw [(hent (toSizeT (atoi s))).2 (by
      intro m hm
      rw [hs] at hm
      exact he m (Option.some.inj hm)), hs]
  have hmc : meshChild r.1 r.2 c =
      (({ r.1 with materialList :=
          (r.1.materialList ++ tpre.map (fun t => toSizeT (atoi t))) }, nodeList1),
        some (.assertion "mat.ptr")) := by
    simp only [meshChild, hc, htoks]
    rw [materialList_append, hrun]
    simp only [materialList, hs1]
    rcases e with _ | n
    · simp
    · cases n with
      | material m => exact absurd rfl (he m)
      | transform t => simp
      | mesh m => simp
      | group g => simp
  refine ⟨?_, nodeList1, hmc, hlen, hs1⟩
  exact (mesh_child_fault world hroot hchild hpre hd hdc hcpre (by rw [hmc])).1

set_option maxRecDepth 8000 in
/-- C17 (witness): the `materiallist` body `0 1 2` over a table whose entry 0
is a Material and whose entry 1 is the placeholder of a Texture2D. -/
theorem materiallist_not_material_asserts_witness :
    (parseBGFscene {} exDocBadList []).fault = some (.assertion "mat.ptr") ∧
    (parseBGFscene {} exDocBadList []).nodeList =
      [some (.material { refCount := 1 }), none,
        some (.mesh { vertex := some ⟨0, 4⟩, materialList := [0] })] := by
  have h := materiallist_not_material_asserts {} [] exDocBadList exMeshBadList
    exMaterialListBad [.mk "Material" "" [] [], .mk "Texture2D" "" [] []] [] [exVertex] []
    ⟨[some (.material {}), none], none⟩
    ({ vertex := some ⟨0, 4⟩ }, [some (.material {}), none, some (.mesh {})])
    ["0".toList] ["2".toList] "1".toList none
    (by decide) rfl (by decide) (by decide) rfl (by decide) (by decide) (by decide)
    (by
      intro t ht
      simp only [List.mem_singleton] at ht
      subst ht
      exact ⟨{}, by decide⟩)
    (by decide) (by intro m; simp)
  exact ⟨h.1, by decide⟩

/-- C18: a document that does not consist of exactly one outermost element
named `BGFscene`, or whose `BGFscene` element has no children, makes
`importRIVL` fail with a thrown `std::runtime_error`, a format error; no World
is returned and the node table is the one the call found. -/
theorem malformed_document_fails (doc : XMLDoc) (nodeList : NodeList)
    (h : ∀ root, doc.child = [root] → root.name ≠ "BGFscene" ∨ root.child = []) :
    ∃ msg, (importRIVL doc nodeList).fault = some (.runtime_error msg) ∧
      (Fault.runtime_error msg).isFormatError = true ∧
      (importRIVL doc nodeList).world = none ∧
      (importRIVL doc nodeList).nodeList = nodeList := by
  unfold importRIVL
  split
  · rename_i root hroot
    rcases h root hroot with h1 | h1
    · exact ⟨"could not parse RIVL file: Not in RIVL format!?", by simp [h1], rfl,
        by simp [h1], by simp [h1]⟩
    · by_cases h2 : root.name = "BGFscene"
      · have hp : parseBGFscene {} root nodeList =
            ⟨nodeList, {}, some (.runtime_error "emply RIVL model !?")⟩ := by
          simp [parseBGFscene, h2, h1]
        exact ⟨"emply RIVL model !?", by simp [h2, hp], rfl, by simp [h2, hp],
          by simp [h2, hp]⟩
      · exact ⟨"could not parse RIVL file: Not in RIVL format!?", by simp [h2], rfl,
          by simp [h2], by simp [h2]⟩
  · exact ⟨_, rfl, rfl, rfl, rfl⟩

/-- C18 (witness): a `BGFscene` element without children, with a table left
by an earlier import. -/
theorem malformed_document_fails_witness :
    ∃ msg, (importRIVL exXmlEmpty exTable).fault = some (.runtime_error msg) ∧
      (Fault.runtime_error msg).isFormatError = true ∧
      (importRIVL exXmlEmpty exTable).world = none ∧
      (importRIVL exXmlEmpty exTable).nodeList = exTable :=
  malformed_document_fails exXmlEmpty exTable (by
    intro root h
    simp only [exXmlEmpty, List.cons.injEq, and_true] at h
    subst h
    exact Or.inr rfl)

set_option maxRecDepth 16000 in
/-- C19 (counterexample): the example scene imported twice in a row, both
times accepted.  The table after the second import has 14 entries, not the 7
it has after the first; and the Transform that the second import creates, at
index 11, has as child the object of index 3, which the first import
created. -/
theorem second_import_same_shape_counterexample :
    (importRIVL exXmlScene []).fault = none ∧
    (importRIVL exXmlScene (importRIVL exXmlScene []).nodeList).fault = none ∧
    (importRIVL exXmlScene []).nodeList.length = 7 ∧
    (importRIVL exXmlScene (importRIVL exXmlScene []).nodeList).nodeList.length = 14 ∧
    (importRIVL exXmlScene (importRIVL exXmlScene []).nodeList).nodeList[11]? =
      some (some (.transform ⟨some 3,
        [⟨"1"⟩, ⟨"0"⟩, ⟨"0"⟩, ⟨"0"⟩, ⟨"1"⟩, ⟨"0"⟩, ⟨"0"⟩, ⟨"0"⟩, ⟨"1"⟩, ⟨"0"⟩, ⟨"0"⟩,
          ⟨"0"⟩]⟩)) := by
  decide

/-- C19 (amended): when the import of a document into an empty table is
accepted, so is a second import of the same document right after it; the
second import does not start from an empty table but appends to the table of
the first.  After the second import the table is the table of the first
one followed by a repetition of it, reference counts of Materials apart: it
has twice the length, the entries at the indices `k` and `n + k` (`n` the
length after the first import) have the kind of entry `k` of the first one,
and the object that the second import creates at index `n + k` holds
references resolved from indices `j ≤ k` (`j < k` for the materials of a
Mesh), which are objects created by the first import. -/
theorem second_import_appends (doc : XMLDoc) (h : (importRIVL doc []).fault = none) :
    (importRIVL doc (importRIVL doc []).nodeList).fault = none ∧
    (importRIVL doc (importRIVL doc []).nodeList).nodeList.map eraseCount =
      (importRIVL doc []).nodeList.map eraseCount ++
        (importRIVL doc []).nodeList.map eraseCount ∧
    (importRIVL doc (importRIVL doc []).nodeList).nodeList.length =
      2 * (importRIVL doc []).nodeList.length ∧
    (importRIVL doc (importRIVL doc []).nodeList).nodeList.map kindOf =
      (importRIVL doc []).nodeList.map kindOf ++ (importRIVL doc []).nodeList.map kindOf ∧
    ∀ k : Nat,
      (∀ t, (importRIVL doc (importRIVL doc []).nodeList).nodeList[
          (importRIVL doc []).nodeList.length + k]? = some (some (.transform t)) →
        ∀ j, t.node = some j → j ≤ k) ∧
      (∀ g, (importRIVL doc (importRIVL doc []).nodeList).nodeList[
          (importRIVL doc []).nodeList.length + k]? = some (some (.group g)) →
        ∀ j, some j ∈ g.child → j ≤ k) ∧
      (∀ m, (importRIVL doc (importRIVL doc []).nodeList).nodeList[
          (importRIVL doc []).nodeList.length + k]? = some (some (.mesh m)) →
        ∀ j, j ∈ m.materialList → j < k) := by
  obtain ⟨root, hdoc, hroot⟩ := importRIVL_accepted h
  obtain ⟨hn1, hf1⟩ := importRIVL_of [] hdoc hroot
  obtain ⟨hn2, hf2⟩ := importRIVL_of (parseBGFscene {} root []).nodeList hdoc hroot
  rw [hf1] at h
  obtain ⟨hok, herase, hrb⟩ := parseBGFscene_twice {} {} root h
  rw [hn1, hn2, hf2]
  have hkinds := congrArg (List.map kindOf) herase
  rw [List.map_append, map_kindOf_eraseCount, map_kindOf_eraseCount] at hkinds
  have hlen := congrArg List.length herase
  simp only [List.length_map, List.length_append] at hlen
  refine ⟨hok, herase, by omega, hkinds, ?_⟩
  intro k
  have hentry : ∀ e, (parseBGFscene {} root (parseBGFscene {} root []).nodeList).nodeList[
      (parseBGFscene {} root []).nodeList.length + k]? = some e →
      ∃ e1, (parseBGFscene {} root []).nodeList[k]? = some e1 ∧
        eraseCount e1 = eraseCount e := by
    intro e he
    have h1 := congrArg (fun l => l[(parseBGFscene {} root []).nodeList.length + k]?) herase
    simp only [List.getElem?_map, he, Option.map_some'] at h1
    rw [List.getElem?_append_right (by simp)] at h1
    simp only [List.length_map, Nat.add_sub_cancel_left, List.getElem?_map] at h1
    rcases hk : (parseBGFscene {} root []).nodeList[k]? with _ | e1
    · rw [hk] at h1; simp at h1
    · rw [hk] at h1
      simp only [Option.map_some', Option.some.injEq] at h1
      exact ⟨e1, rfl, h1.symm⟩
  refine ⟨?_, ?_, ?_⟩
  · intro t ht
    obtain ⟨e1, he1, hee⟩ := hentry _ ht
    have := eraseCount_inv.1 t hee
    subst this
    exact hrb k _ he1
  · intro g hg
    obtain ⟨e1, he1, hee⟩ := hentry _ hg
    have := eraseCount_inv.2.1 g hee
    subst this
    exact hrb k _ he1
  · intro m hm
    obtain ⟨e1, he1, hee⟩ := hentry _ hm
    have := eraseCount_inv.2.2 m hee
    subst this
    exact hrb k _ he1

set_option maxRecDepth 16000 in
/-- C19 (witness): the example scene imported twice. -/
theorem second_import_appends_witness :
    (importRIVL exXmlScene (importRIVL exXmlScene []).nodeList).fault = none ∧
    (importRIVL exXmlScene (importRIVL exXmlScene []).nodeList).nodeList.length =
      2 * (importRIVL exXmlScene []).nodeList.length :=
  ⟨(second_import_appends exXmlScene (by decide)).1,
    (second_import_appends exXmlScene (by decide)).2.2.1⟩

/-- C20: whenever `parseBGFscene` stops with a fault, whatever the fault is
and however many declarations were processed before it, the World it was
given is exactly as it was at the call: no root has been added. -/
theorem world_unchanged_on_failure (world : World) (root : XmlNode) (nodeList : NodeList)
    (h : (parseBGFscene world root nodeList).fault ≠ none) :
    (parseBGFscene world root nodeList).world = world := by
  unfold parseBGFscene at h ⊢
  split_ifs with h1 h2
  · rfl
  · rfl
  · rw [if_neg h1, if_neg h2] at h
    rcases hp : parseDeclarations ⟨nodeList, none⟩ root.child with ⟨st, _ | f⟩
    · rw [hp] at h
      exact absurd rfl h
    · rfl

set_option maxRecDepth 8000 in
/-- C20 (witness): the document whose Transform has eleven numbers fails
after its Material has been processed, and the World keeps its one root. -/
theorem world_unchanged_on_failure_witness :
    (parseBGFscene { node := [some 7] } exDocShort []).world = { node := [some 7] } :=
  world_unchanged_on_failure { node := [some 7] } exDocShort [] (by decide)

/-- C21: for every document and every initial table, whether `parseBGFscene`
ends or stops at a fault, the table at the call is the beginning of the table
it leaves: the entries are the same, in the same order, the only change being
the reference count of a Material that got a `refInc()`; so the pointer at
every old index is the one it was and points to the same object.  Each
declaration appends at the end of the table: no entry when it is named
`text`, else exactly one, whose index is the length of the table just before
the declaration. -/
theorem node_table_append_only (world : World) (root : XmlNode) (nodeList : NodeList) :
    (∃ N, (parseBGFscene world root nodeList).nodeList.map eraseCount =
      nodeList.map eraseCount ++ N) ∧
    (∀ (i : Nat) (e : Option Node), nodeList[i]? = some e →
      ∃ e1, (parseBGFscene world root nodeList).nodeList[i]? = some e1 ∧
        ptrOf i e1 = ptrOf i e ∧ eraseCount e1 = eraseCount e) ∧
    ∀ (st : Loop) (d : XmlNode),
      ∃ N, (parseDeclaration st d).1.nodeList.map eraseCount =
          st.nodeList.map eraseCount ++ N ∧
        N.length = (if d.name = "text" then 0 else 1) ∧
        (d.name ≠ "text" →
          ((parseDeclaration st d).1.nodeList[st.nodeList.length]?).map kindOf =
            some (declKind d.name)) := by
  obtain ⟨N, hN⟩ := parseBGFscene_eraseCount world root nodeList
  refine ⟨⟨N, hN⟩, ?_, ?_⟩
  · intro i e he
    have hi : i < nodeList.length := by
      by_contra hge
      rw [List.getElem?_eq_none (Nat.le_of_not_lt hge)] at he
      exact absurd he (by simp)
    have h1 := congrArg (fun l => l[i]?) hN
    simp only [List.getElem?_map] at h1
    rw [List.getElem?_append_left (by simpa using hi), List.getElem?_map, he] at h1
    rcases h2 : (parseBGFscene world root nodeList).nodeList[i]? with _ | e1
    · rw [h2] at h1; simp at h1
    · rw [h2] at h1
      simp only [Option.map_some', Option.some.injEq] at h1
      exact ⟨e1, rfl, ptrOf_of_eraseCount h1, h1⟩
  · intro st d
    obtain ⟨M, hM⟩ := parseDeclaration_eraseCount st d
    have hk := parseDeclaration_kinds st d
    refine ⟨M, hM, ?_, ?_⟩
    · have h1 := congrArg List.length hM
      have h2 := congrArg List.length hk
      simp only [List.length_map, List.length_append] at h1 h2
      split_ifs at h2 ⊢ with ht
      · simp at h2; omega
      · simp at h2; omega
    · intro ht
      have h1 := congrArg (fun l => l[st.nodeList.length]?) hk
      simp only [List.getElem?_map, if_neg ht] at h1
      rw [h1, List.getElem?_append_right (by simp)]
      simp

/-- C22: for a Material `param` child whose type tag has `k` components
(for `int`, with a name that does not contain `map_`), the decoder hands the
null pointer of an exhausted `strtok` to `atof` or `atol` exactly when the
body has fewer than `k` tokens, which an empty or all-delimiter body always
has; with at least `k` tokens the `param` is decoded without a fault; the
fault of a short body is not a format error; and an `int` `param` whose name
contains `map_` reads no token, so it raises no fault whatever its body. -/
theorem param_reads_missing_token_iff_short (mat : Material) (child : XmlNode) (k : Nat)
    (hname : child.name = "param")
    (hty : componentCount (paramAttrs "" "" child.prop).2 = some k)
    (hmap : (paramAttrs "" "" child.prop).2 = "int" →
      ¬ "map_".toList <:+: (paramAttrs "" "" child.prop).1.toList) :
    (materialChild mat child = .error .nullToken ↔
      (strtokAll (c_str child.content)).length < k) ∧
    (k ≤ (strtokAll (c_str child.content)).length →
      ∃ mat1, materialChild mat child = .ok mat1) ∧
    ((c_str child.content).dropWhile isDelim = [] →
      materialChild mat child = .error .nullToken) ∧
    Fault.nullToken.isFormatError = false ∧
    ∀ c : XmlNode, c.name = "param" → (paramAttrs "" "" c.prop).2 = "int" →
      "map_".toList <:+: (paramAttrs "" "" c.prop).1.toList →
      materialChild mat c = .ok mat := by
  have hmap2 : (paramAttrs "" "" child.prop).2 = "int" →
      contains "map_".toList (paramAttrs "" "" child.prop).1.toList = false := by
    intro h
    have := hmap h
    rw [← contains_iff_infix] at this
    simpa using this
  have hmc : materialChild mat child =
      decodeParam mat (paramAttrs "" "" child.prop).1 (paramAttrs "" "" child.prop).2
        (strtokAll (c_str child.content)) := by
    simp [materialChild, hname]
  have hshort : (strtokAll (c_str child.content)).length < k →
      materialChild mat child = .error .nullToken := by
    intro hlt
    rw [hmc]
    exact decodeParam_short mat _ _ _ k hty hlt hmap2
  have hlong : k ≤ (strtokAll (c_str child.content)).length →
      ∃ mat1, materialChild mat child = .ok mat1 := by
    intro hge
    obtain ⟨v, -, hv⟩ := decodeParam_value mat _ _ _ k hty hge hmap2
    exact ⟨_, by rw [hmc, hv]⟩
  have hk : 0 < k := by
    rcases componentCount_cases hty with h | h | h | h | h | h | h | h <;> omega
  refine ⟨⟨?_, hshort⟩, hlong, ?_, rfl, ?_⟩
  · intro herr
    by_contra hge
    obtain ⟨mat1, h1⟩ := hlong (Nat.le_of_not_lt hge)
    rw [h1] at herr
    exact absurd herr (by simp)
  · intro hws
    apply hshort
    rw [(strtokAll_delims _ hws).1]
    exact hk
  · intro c hc hty2 hm
    rw [← contains_iff_infix] at hm
    simp at hm
    simp [materialChild, hc, decodeParam, hty2, hm]

/-- C22 (witness): a `float3` `param` whose body has two numbers. -/
theorem param_reads_missing_token_iff_short_witness :
    (strtokAll (c_str exParamShort.content)).length = 2 ∧
    materialChild {} exParamShort = .error .nullToken := by
  have h := param_reads_missing_token_iff_short {} exParamShort 3 (by decide) (by decide)
    (by decide)
  exact ⟨by decide, h.1.mpr (by decide)⟩

end ospray.sg
